import Mathlib

/-
  Verification development for the bucket-scout sync engine
  (src/apps/web/src-tauri/src/commands/sync.rs and src/apps/web/src-tauri/src/db/sync.rs).

  The Rust code is shallowly embedded: HashMaps become association lists
  (inserts are modelled by insertKey, which overwrites an existing key and
  otherwise appends, matching HashMap::insert), SQLite tables of tracked
  files become lists of TrackedFile rows keyed by relative_path (the schema
  has a unique index on (sync_pair_id, relative_path)), and i64 becomes Int.
  The field `remote_prefix` of SyncPair is named `remote_pfx` here.
-/

set_option autoImplicit false

namespace BucketScout

/-- Sync direction of a pair (db/sync.rs, enum SyncDirection). -/
inductive SyncDirection where
  | UploadOnly
  | DownloadOnly
  deriving DecidableEq, Repr

/-- Status of a sync pair (db/sync.rs, enum SyncPairStatus). -/
inductive SyncPairStatus where
  | Idle
  | Syncing
  | Error
  deriving DecidableEq, Repr

/-- Status of a sync session (db/sync.rs, enum SyncSessionStatus). -/
inductive SyncSessionStatus where
  | Running
  | Completed
  | Failed
  | Cancelled
  deriving DecidableEq, Repr

/-- Change classification (db/sync.rs, enum ChangeType). -/
inductive ChangeType where
  | New
  | Modified
  | Deleted
  | Unchanged
  deriving DecidableEq, Repr

/-- A tracked file row (db/sync.rs, struct TrackedFile). For local rows the
etag column does not exist and is read back as NULL; for remote rows the
last_modified column is read back under the alias mtime_ms. -/
structure TrackedFile where
  id : Int
  sync_pair_id : Int
  relative_path : String
  size : Int
  mtime_ms : Option Int
  etag : Option String
  content_hash : Option String
  is_deleted : Bool
  last_seen_at : Int
  deriving DecidableEq, Repr

/-- A detected change (db/sync.rs, struct DetectedChange). -/
structure DetectedChange where
  relative_path : String
  change_type : ChangeType
  size : Option Int
  mtime : Option Int
  hash : Option String
  deriving DecidableEq, Repr

/-- A sync pair configuration (db/sync.rs, struct SyncPair);
`remote_pfx` embeds the source field `remote_prefix`. -/
structure SyncPair where
  id : Int
  name : String
  local_path : String
  account_id : String
  bucket : String
  remote_pfx : String
  sync_direction : SyncDirection
  delete_propagation : Bool
  status : SyncPairStatus
  last_sync_at : Option Int
  last_error : Option String
  created_at : Int
  deriving DecidableEq, Repr

/-- A scan result map (HashMap of relative path to DetectedChange),
embedded as an association list. -/
abbrev ScanMap := List (String × DetectedChange)

/-- First-match association-list lookup (the read side of a HashMap). -/
def lookupKey {κ α : Type} [DecidableEq κ] (k : κ) : List (κ × α) → Option α
  | [] => none
  | e :: rest => if e.1 = k then some e.2 else lookupKey k rest

/-- Key membership in an association list (HashMap::contains_key). -/
def containsKey {κ α : Type} [DecidableEq κ] (k : κ) (l : List (κ × α)) : Bool :=
  (lookupKey k l).isSome

/-- HashMap::insert: overwrite the entry with the given key if present,
otherwise append a fresh entry. -/
def insertKey {κ α : Type} [DecidableEq κ] (l : List (κ × α)) (k : κ) (v : α) :
    List (κ × α) :=
  if containsKey k l then l.map (fun e => if e.1 = k then (k, v) else e)
  else l ++ [(k, v)]

/-- Fold a list of items into a map, inserting the entry `g b` for each item
`b` for which `g b` produces one (an imperative loop of conditional
HashMap inserts). -/
def insertFiltered {β α : Type} (g : β → Option (String × α)) (l : List β)
    (init : List (String × α)) : List (String × α) :=
  l.foldl (fun acc b =>
    match g b with
    | some e => insertKey acc e.1 e.2
    | none => acc) init

/-- Value of the last entry of the list carrying the given key, if any:
the lookup discipline of a map built by repeated overwriting inserts. -/
def firstFromEnd {α : Type} (k : String) : List (String × α) → Option α
  | [] => none
  | e :: rest =>
    match firstFromEnd k rest with
    | some v => some v
    | none => if e.1 = k then some e.2 else none

-- ==================== detect_changes (commands/sync.rs 527-583) ====================

/-- The prev_map lookup of detect_changes: the previous list is collected
into a HashMap keyed by relative_path, so a later row with the same path
wins; hence the search returns the last matching row. -/
def findPrev (previous : List TrackedFile) (path : String) : Option TrackedFile :=
  match previous with
  | [] => none
  | f :: rest =>
    match findPrev rest path with
    | some g => some g
    | none => if f.relative_path = path then some f else none

/-- Per-path classification of detect_changes for a path present in the
current scan (commands/sync.rs 541-553). -/
def classify_current (previous : List TrackedFile) (path : String)
    (curr : DetectedChange) : ChangeType :=
  match findPrev previous path with
  | some prev =>
    if prev.is_deleted then ChangeType.New
    else if prev.size ≠ curr.size.getD 0 ∨ prev.mtime_ms ≠ curr.mtime then
      ChangeType.Modified
    else ChangeType.Unchanged
  | none => ChangeType.New

/-- The entry inserted into the changes map by the first loop of
detect_changes, none when the path is Unchanged (commands/sync.rs 555-564). -/
def classifiedEntry (previous : List TrackedFile) (pc : String × DetectedChange) :
    Option (String × DetectedChange) :=
  let ct := classify_current previous pc.1 pc.2
  if ct = ChangeType.Unchanged then none
  else some (pc.1, { pc.2 with change_type := ct })

/-- The Deleted record built by the second loop of detect_changes
(commands/sync.rs 569-578). -/
def deletedRecord (prev : TrackedFile) : DetectedChange :=
  { relative_path := prev.relative_path
    change_type := ChangeType.Deleted
    size := some prev.size
    mtime := prev.mtime_ms
    hash := prev.content_hash }

/-- The entry inserted into the changes map by the second loop of
detect_changes, none unless the record is live and absent from current
(commands/sync.rs 567-580). -/
def deletedEntry (current : ScanMap) (prev : TrackedFile) :
    Option (String × DetectedChange) :=
  if prev.is_deleted = false ∧ containsKey prev.relative_path current = false then
    some (prev.relative_path, deletedRecord prev)
  else none

/-- detect_changes (commands/sync.rs 527-583): classify current entries,
dropping Unchanged ones, then add a Deleted entry for every live previous
record whose path is absent from current. -/
def detect_changes (previous : List TrackedFile) (current : ScanMap) : ScanMap :=
  insertFiltered (deletedEntry current) previous
    (insertFiltered (classifiedEntry previous) current [])

-- ==================== Planner (commands/sync.rs 179-238, 633-712) ====================

/-- The first-sync change list: every current entry becomes a New change
keyed by the map key (commands/sync.rs 184-191, 213-220, 642-649, 681-688). -/
def bootstrapChanges (current : ScanMap) : List DetectedChange :=
  current.map (fun pc =>
    { relative_path := pc.1, change_type := ChangeType.New,
      size := pc.2.size, mtime := pc.2.mtime, hash := pc.2.hash })

/-- The detected changes of one side as a list of values, in map order. -/
def changeValues (previous : List TrackedFile) (current : ScanMap) :
    List DetectedChange :=
  (detect_changes previous current).map Prod.snd

/-- A change routed to the transfer queue (match arm New | Modified). -/
def isTransferChange (c : DetectedChange) : Bool :=
  decide (c.change_type = ChangeType.New) || decide (c.change_type = ChangeType.Modified)

/-- A change routed to a delete queue (match arm Deleted). -/
def isDeletedChange (c : DetectedChange) : Bool :=
  decide (c.change_type = ChangeType.Deleted)

/-- Preview result (db/sync.rs, struct SyncPreview). -/
structure SyncPreview where
  to_upload : List DetectedChange
  to_download : List DetectedChange
  to_delete_local : List DetectedChange
  to_delete_remote : List DetectedChange
  deriving DecidableEq, Repr

/-- preview_sync after scanning (commands/sync.rs 171-240): with an empty
previous snapshot for the authoritative side every current entry of that
side is pushed as New; otherwise the detected changes are routed by type,
and a Deleted change is pushed to the destination delete queue only when
delete propagation is enabled. -/
def preview_sync (pair : SyncPair) (local_previous remote_previous : List TrackedFile)
    (local_current remote_current : ScanMap) : SyncPreview :=
  match pair.sync_direction with
  | SyncDirection.UploadOnly =>
    if local_previous.isEmpty then
      { to_upload := bootstrapChanges local_current, to_download := [],
        to_delete_local := [], to_delete_remote := [] }
    else
      let cs := changeValues local_previous local_current
      { to_upload := cs.filter isTransferChange
        to_download := []
        to_delete_local := []
        to_delete_remote :=
          if pair.delete_propagation then cs.filter isDeletedChange else [] }
  | SyncDirection.DownloadOnly =>
    if remote_previous.isEmpty then
      { to_upload := [], to_download := bootstrapChanges remote_current,
        to_delete_local := [], to_delete_remote := [] }
    else
      let cs := changeValues remote_previous remote_current
      { to_upload := []
        to_download := cs.filter isTransferChange
        to_delete_local :=
          if pair.delete_propagation then cs.filter isDeletedChange else []
        to_delete_remote := [] }

/-- The action queues collected by run_sync (commands/sync.rs 624-712),
including the skipped-deletion bookkeeping lists. -/
structure SyncPlan where
  to_upload : List DetectedChange
  to_download : List DetectedChange
  to_delete_local : List DetectedChange
  to_delete_remote : List DetectedChange
  skipped_local_deletions : List DetectedChange
  skipped_remote_deletions : List DetectedChange
  deriving DecidableEq, Repr

/-- The planning phase of run_sync (commands/sync.rs 633-712): like
preview_sync, but the bootstrap branch is also taken on resync, and a
Deleted change with propagation disabled goes to a skipped-deletion list. -/
def plan_sync (pair : SyncPair) (is_resync : Bool)
    (local_previous remote_previous : List TrackedFile)
    (local_current remote_current : ScanMap) : SyncPlan :=
  match pair.sync_direction with
  | SyncDirection.UploadOnly =>
    if is_resync || local_previous.isEmpty then
      { to_upload := bootstrapChanges local_current, to_download := [],
        to_delete_local := [], to_delete_remote := [],
        skipped_local_deletions := [], skipped_remote_deletions := [] }
    else
      let cs := changeValues local_previous local_current
      { to_upload := cs.filter isTransferChange
        to_download := []
        to_delete_local := []
        to_delete_remote :=
          if pair.delete_propagation then cs.filter isDeletedChange else []
        skipped_local_deletions :=
          if pair.delete_propagation then [] else cs.filter isDeletedChange
        skipped_remote_deletions := [] }
  | SyncDirection.DownloadOnly =>
    if is_resync || remote_previous.isEmpty then
      { to_upload := [], to_download := bootstrapChanges remote_current,
        to_delete_local := [], to_delete_remote := [],
        skipped_local_deletions := [], skipped_remote_deletions := [] }
    else
      let cs := changeValues remote_previous remote_current
      { to_upload := []
        to_download := cs.filter isTransferChange
        to_delete_local :=
          if pair.delete_propagation then cs.filter isDeletedChange else []
        to_delete_remote := []
        skipped_local_deletions := []
        skipped_remote_deletions :=
          if pair.delete_propagation then [] else cs.filter isDeletedChange }

-- ==================== State store (db/sync.rs 388-579) ====================

/-- Does a row for the given relative path exist in the table slice. -/
def containsPath (path : String) (rows : List TrackedFile) : Bool :=
  rows.any (fun f => decide (f.relative_path = path))

/-- Apply an update to every row with the given relative path (the SQL
UPDATE or upsert conflict clause; the unique index makes it at most one). -/
def updateRow (upd : TrackedFile → TrackedFile) (path : String)
    (rows : List TrackedFile) : List TrackedFile :=
  rows.map (fun f => if f.relative_path = path then upd f else f)

/-- save_local_file_state (db/sync.rs 391-418): upsert keyed by relative
path, setting size, mtime, hash, clearing the deleted flag. The local table
has no etag column. -/
def save_local_file_state (rows : List TrackedFile) (pair_id : Int) (path : String)
    (size : Int) (mtime_ms : Int) (content_hash : Option String) (now : Int) :
    List TrackedFile :=
  if containsPath path rows then
    updateRow (fun f =>
      { f with
        size := size, mtime_ms := some mtime_ms,
        content_hash := content_hash, is_deleted := false, last_seen_at := now })
      path rows
  else
    rows ++ [{
      id := 0, sync_pair_id := pair_id, relative_path := path,
      size := size, mtime_ms := some mtime_ms, etag := none,
      content_hash := content_hash, is_deleted := false, last_seen_at := now }]

/-- save_remote_file_state (db/sync.rs 476-505): upsert keyed by relative
path; the last_modified column is read back as mtime_ms. -/
def save_remote_file_state (rows : List TrackedFile) (pair_id : Int) (path : String)
    (size : Int) (etag : Option String) (last_modified : Option Int)
    (content_hash : Option String) (now : Int) : List TrackedFile :=
  if containsPath path rows then
    updateRow (fun f =>
      { f with
        size := size, etag := etag, mtime_ms := last_modified,
        content_hash := content_hash, is_deleted := false, last_seen_at := now })
      path rows
  else
    rows ++ [{
      id := 0, sync_pair_id := pair_id, relative_path := path,
      size := size, mtime_ms := last_modified, etag := etag,
      content_hash := content_hash, is_deleted := false, last_seen_at := now }]

/-- The row update performed when a file is marked deleted. -/
def markUpd (now : Int) (f : TrackedFile) : TrackedFile :=
  { f with is_deleted := true, last_seen_at := now }

/-- mark_local_file_deleted and mark_remote_file_deleted (db/sync.rs
421-436, 508-523): set the deleted flag on the row with the given path;
a missing row is a no-op. -/
def mark_file_deleted (rows : List TrackedFile) (path : String) (now : Int) :
    List TrackedFile :=
  updateRow (markUpd now) path rows

-- ==================== Executor (commands/sync.rs 714-962) ====================

/-- The filesystem and object store as observed by the executor, keyed by
relative path: byte length returned by reading the local file for upload,
fresh stat mtime, byte length of a downloaded body, and whether get_object
succeeds (false embeds the tolerated NoSuchKey race). -/
structure FsEnv where
  readSize : String → Int
  statMtime : String → Option Int
  bodySize : String → Int
  remoteExists : String → Bool

/-- One upload (commands/sync.rs 741-802): put the bytes read from disk,
then save local state with that byte count and the scanned mtime (falling
back to a fresh stat, then 0), and remote state with only the new size. -/
def upload_step (env : FsEnv) (pair_id : Int) (now : Int)
    (st : List TrackedFile × List TrackedFile) (c : DetectedChange) :
    List TrackedFile × List TrackedFile :=
  let size := env.readSize c.relative_path
  let mtime := c.mtime.getD ((env.statMtime c.relative_path).getD 0)
  (save_local_file_state st.1 pair_id c.relative_path size mtime none now,
   save_remote_file_state st.2 pair_id c.relative_path size none none none now)

/-- One download (commands/sync.rs 805-897): skip silently when the object
vanished; otherwise write the body, save local state from a fresh stat and
the body length, and remote state from the scanned attributes. -/
def download_step (env : FsEnv) (pair_id : Int) (now : Int)
    (st : List TrackedFile × List TrackedFile) (c : DetectedChange) :
    List TrackedFile × List TrackedFile :=
  if env.remoteExists c.relative_path then
    let size := env.bodySize c.relative_path
    let mtime := (env.statMtime c.relative_path).getD 0
    (save_local_file_state st.1 pair_id c.relative_path size mtime none now,
     save_remote_file_state st.2 pair_id c.relative_path size c.hash c.mtime none now)
  else st

/-- One delete action (commands/sync.rs 900-948): after removing the file
or object, both tracked records are marked deleted. -/
def delete_action_step (now : Int) (st : List TrackedFile × List TrackedFile)
    (c : DetectedChange) : List TrackedFile × List TrackedFile :=
  (mark_file_deleted st.1 c.relative_path now,
   mark_file_deleted st.2 c.relative_path now)

/-- The executor of run_sync on its success path (commands/sync.rs
730-962): uploads, downloads, local deletes, remote deletes, then the
skipped deletions are marked on the source side only. -/
def execute_plan (env : FsEnv) (pair_id : Int) (now : Int) (plan : SyncPlan)
    (localState remoteState : List TrackedFile) :
    List TrackedFile × List TrackedFile :=
  let st := (localState, remoteState)
  let st := plan.to_upload.foldl (upload_step env pair_id now) st
  let st := plan.to_download.foldl (download_step env pair_id now) st
  let st := plan.to_delete_local.foldl (delete_action_step now) st
  let st := plan.to_delete_remote.foldl (delete_action_step now) st
  let st := plan.skipped_local_deletions.foldl
    (fun s c => (mark_file_deleted s.1 c.relative_path now, s.2)) st
  let st := plan.skipped_remote_deletions.foldl
    (fun s c => (s.1, mark_file_deleted s.2 c.relative_path now)) st
  st

/-- run_sync on its success path (commands/sync.rs 586-991): plan from the
previous tracked state and the scans, then execute, returning the queues
and the final tracked state of both sides.  The tracked state read at the
start of the run is the same stored state the executor then updates. -/
def run_sync (env : FsEnv) (now : Int) (pair : SyncPair) (is_resync : Bool)
    (local_previous remote_previous : List TrackedFile)
    (local_current remote_current : ScanMap) :
    SyncPlan × List TrackedFile × List TrackedFile :=
  let plan := plan_sync pair is_resync local_previous remote_previous
    local_current remote_current
  (plan, execute_plan env pair.id now plan local_previous remote_previous)

-- ==================== Executor folds, one side at a time ====================

/-- Local-side effect of the upload loop of execute_plan. -/
def uploadLocalFold (env : FsEnv) (pid now : Int) (cs : List DetectedChange)
    (rows : List TrackedFile) : List TrackedFile :=
  cs.foldl (fun r c =>
    save_local_file_state r pid c.relative_path (env.readSize c.relative_path)
      (c.mtime.getD ((env.statMtime c.relative_path).getD 0)) none now) rows

/-- Remote-side effect of the upload loop of execute_plan. -/
def uploadRemoteFold (env : FsEnv) (pid now : Int) (cs : List DetectedChange)
    (rows : List TrackedFile) : List TrackedFile :=
  cs.foldl (fun r c =>
    save_remote_file_state r pid c.relative_path (env.readSize c.relative_path)
      none none none now) rows

/-- Local-side effect of the download loop of execute_plan. -/
def downloadLocalFold (env : FsEnv) (pid now : Int) (cs : List DetectedChange)
    (rows : List TrackedFile) : List TrackedFile :=
  cs.foldl (fun r c =>
    if env.remoteExists c.relative_path then
      save_local_file_state r pid c.relative_path (env.bodySize c.relative_path)
        ((env.statMtime c.relative_path).getD 0) none now
    else r) rows

/-- Remote-side effect of the download loop of execute_plan. -/
def downloadRemoteFold (env : FsEnv) (pid now : Int) (cs : List DetectedChange)
    (rows : List TrackedFile) : List TrackedFile :=
  cs.foldl (fun r c =>
    if env.remoteExists c.relative_path then
      save_remote_file_state r pid c.relative_path (env.bodySize c.relative_path)
        c.hash c.mtime none now
    else r) rows

/-- One-side effect of a loop marking tracked files deleted. -/
def markFold (now : Int) (cs : List DetectedChange) (rows : List TrackedFile) :
    List TrackedFile :=
  cs.foldl (fun r c => mark_file_deleted r c.relative_path now) rows

-- ==================== Sessions (db/sync.rs 584-668, commands/sync.rs 258-336) ====================

/-- A sync session row as far as status tracking is concerned. -/
structure SyncSessionRow where
  status : SyncSessionStatus
  completed_at : Option Int
  error_message : Option String
  deriving DecidableEq, Repr

/-- create_sync_session (db/sync.rs 584-598): a session is inserted with
status running. -/
def create_sync_session_row : SyncSessionRow :=
  { status := SyncSessionStatus.Running, completed_at := none, error_message := none }

/-- complete_sync_session (db/sync.rs 635-650). -/
def complete_sync_session (now : Int) (s : SyncSessionRow) : SyncSessionRow :=
  { s with completed_at := some now, status := SyncSessionStatus.Completed }

/-- fail_sync_session (db/sync.rs 653-668). -/
def fail_sync_session (now : Int) (msg : String) (s : SyncSessionRow) : SyncSessionRow :=
  { s with
    completed_at := some now, status := SyncSessionStatus.Failed,
    error_message := some msg }

/-- How one invocation of run_sync terminates: it reaches the end of the
function, it returns Ok early because a cancellation poll observed the
flag (commands/sync.rs 615-617, 714-716, 742-744, 806-808, 901-903,
924-926), or it returns an error. -/
inductive RunOutcome where
  | finished
  | cancelledEarly
  | errored (msg : String)
  deriving DecidableEq, Repr

/-- The session updates performed when a run terminates: run_sync itself
calls complete_sync_session just before returning Ok at the end
(commands/sync.rs 975), and the task spawned by start_sync calls
fail_sync_session only when run_sync returned an error (commands/sync.rs
321-322); an early Ok return performs no session update. -/
def session_after_run (now : Int) (o : RunOutcome) (s : SyncSessionRow) :
    SyncSessionRow :=
  match o with
  | RunOutcome.finished => complete_sync_session now s
  | RunOutcome.cancelledEarly => s
  | RunOutcome.errored msg => fail_sync_session now msg s

-- ==================== Remote scan (commands/sync.rs 461-524) ====================

/-- One object of a list_objects_v2 page. -/
structure S3Object where
  key : String
  size : Option Int
  last_modified_secs : Option Int
  e_tag : Option String
  deriving DecidableEq, Repr

/-- Rust str::trim_matches for a single character: strip every leading and
trailing occurrence. -/
def trimChar (ch : Char) (s : String) : String :=
  String.mk (((s.data.dropWhile (· = ch)).reverse.dropWhile (· = ch)).reverse)

/-- Rust key.ends_with of the separator character (commands/sync.rs 487):
the last character is the separator. -/
def endsWithSep (s : String) : Bool :=
  s.data.getLast? = some '/'

/-- The relative path derived from a key (commands/sync.rs 492-496): when a
prefix is configured and the key is longer than prefix plus separator, drop
that many characters; in every case strip all leading separators.  Rust
slices and measures bytes; this model works on characters, which coincides
on single-byte keys. -/
def stripRelative (pfxLen : Nat) (key : String) : String :=
  if pfxLen > 0 ∧ key.length > pfxLen then
    String.mk ((key.data.drop pfxLen).dropWhile (· = '/'))
  else String.mk (key.data.dropWhile (· = '/'))

/-- The length stripped from each key: the configured prefix plus one for
the separator appended to it in the listing request (commands/sync.rs 469). -/
def pfxLenOf (pfx : String) : Nat :=
  if pfx.isEmpty then 0 else pfx.length + 1

/-- The map entry produced for one listed object, none for keys ending in
the separator (commands/sync.rs 484-513). -/
def remoteEntry (pfx : String) (obj : S3Object) : Option (String × DetectedChange) :=
  if endsWithSep obj.key then none
  else
    let relative := stripRelative (pfxLenOf pfx) obj.key
    some (relative,
      { relative_path := relative, change_type := ChangeType.Unchanged,
        size := obj.size, mtime := obj.last_modified_secs.map (· * 1000),
        hash := obj.e_tag.map (trimChar '"') })

/-- scan_remote_files (commands/sync.rs 461-524): fold the listing pages
into one map, inserting an entry per object key that does not end in the
separator. -/
def scan_remote_files (pfx : String) (pages : List (List S3Object)) : ScanMap :=
  pages.foldl (fun files page => insertFiltered (remoteEntry pfx) page files) []

-- ==================== Command-level state (commands/sync.rs 17-29, 244-363) ====================

/-- A sync pair row as far as the cancel and guard commands touch it. -/
structure PairRow where
  status : SyncPairStatus
  last_error : Option String
  deriving DecidableEq, Repr

/-- The command-level state: the active-sync map from pair id to its
cancellation flag, the pair rows, and the session rows. -/
structure AppState where
  active_syncs : List (Int × Bool)
  pairs : List (Int × PairRow)
  sessions : List SyncSessionRow
  deriving DecidableEq, Repr

/-- The synchronous part of start_sync (commands/sync.rs 244-296): missing
pair and already-running checks precede every write; on success the pair
is set to Syncing, a Running session is appended and the cancellation flag
is registered.  The spawned task itself is out of scope here. -/
def start_sync (st : AppState) (pair_id : Int) : AppState × Except String Int :=
  match lookupKey pair_id st.pairs with
  | none => (st, Except.error "Sync pair not found")
  | some pr =>
    if containsKey pair_id st.active_syncs then
      (st, Except.error "Sync already in progress")
    else
      ({ active_syncs := st.active_syncs ++ [(pair_id, false)]
         pairs := st.pairs.map (fun e =>
           if e.1 = pair_id then (e.1, { pr with status := SyncPairStatus.Syncing })
           else e)
         sessions := st.sessions ++ [create_sync_session_row] },
       Except.ok (Int.ofNat st.sessions.length))

/-- cancel_sync (commands/sync.rs 339-363): set the cancellation flag when
one is registered, set the pair status to Idle unconditionally (the SQL
touches only the status column), remove the pair from the active map, and
return Ok. -/
def cancel_sync (st : AppState) (pair_id : Int) : AppState × Except String Unit :=
  let active := st.active_syncs.map (fun e => if e.1 = pair_id then (e.1, true) else e)
  ({ active_syncs := active.filter (fun e => decide (e.1 ≠ pair_id))
     pairs := st.pairs.map (fun e =>
       if e.1 = pair_id then (e.1, { e.2 with status := SyncPairStatus.Idle }) else e)
     sessions := st.sessions },
   Except.ok ())

-- ==================== Association-list lemmas ====================

theorem lookupKey_nil {κ α : Type} [DecidableEq κ] (k : κ) :
    lookupKey (α := α) k [] = none := rfl

theorem lookupKey_append {κ α : Type} [DecidableEq κ] (k : κ) (l₁ l₂ : List (κ × α)) :
    lookupKey k (l₁ ++ l₂) = (lookupKey k l₁).or (lookupKey k l₂) := by
  induction l₁ with
  | nil => simp [lookupKey]
  | cons e rest ih =>
    by_cases h : e.1 = k <;> simp [lookupKey, h, ih]

theorem containsKey_of_mem {κ α : Type} [DecidableEq κ] {k : κ} {v : α}
    {l : List (κ × α)} (h : (k, v) ∈ l) : containsKey k l = true := by
  induction l with
  | nil => simp at h
  | cons e rest ih =>
    rcases List.mem_cons.mp h with h | h
    · simp [containsKey, lookupKey, ← h]
    · by_cases he : e.1 = k
      · simp [containsKey, lookupKey, he]
      · simpa [containsKey, lookupKey, he] using ih h

theorem mem_of_lookupKey {κ α : Type} [DecidableEq κ] {k : κ} {v : α}
    {l : List (κ × α)} (h : lookupKey k l = some v) : (k, v) ∈ l := by
  induction l with
  | nil => simp [lookupKey] at h
  | cons e rest ih =>
    obtain ⟨e1, e2⟩ := e
    by_cases he : e1 = k
    · subst he
      simp [lookupKey] at h
      subst h
      exact List.mem_cons_self _ _
    · simp [lookupKey, he] at h
      exact List.mem_cons_of_mem _ (ih h)

theorem lookupKey_map_overwrite {κ α : Type} [DecidableEq κ] (k : κ) (v : α)
    (l : List (κ × α)) (h : containsKey k l = true) :
    lookupKey k (l.map fun e => if e.1 = k then (k, v) else e) = some v := by
  induction l with
  | nil => simp [containsKey, lookupKey] at h
  | cons e rest ih =>
    by_cases he : e.1 = k
    · simp [lookupKey, he]
    · have h' : containsKey k rest = true := by
        simpa [containsKey, lookupKey, he] using h
      simpa [lookupKey, he] using ih h'

theorem lookupKey_map_overwrite_other {κ α : Type} [DecidableEq κ] {k k' : κ} (v : α)
    (l : List (κ × α)) (hne : k ≠ k') :
    lookupKey k' (l.map fun e => if e.1 = k then (k, v) else e) = lookupKey k' l := by
  induction l with
  | nil => simp
  | cons e rest ih =>
    by_cases he : e.1 = k
    · have : e.1 ≠ k' := he ▸ hne
      simp [lookupKey, he, hne, this, ih]
    · simp [lookupKey, he, ih]

theorem lookupKey_insertKey_self {κ α : Type} [DecidableEq κ] (l : List (κ × α))
    (k : κ) (v : α) : lookupKey k (insertKey l k v) = some v := by
  unfold insertKey
  by_cases h : containsKey k l
  · simpa [h] using lookupKey_map_overwrite k v l h
  · have hl : lookupKey k l = none := by
      cases hk : lookupKey k l with
      | none => rfl
      | some w =>
        exfalso
        exact h (by simp [containsKey, hk])
    simp [h, lookupKey_append, hl, lookupKey]

theorem lookupKey_insertKey_other {κ α : Type} [DecidableEq κ] (l : List (κ × α))
    {k k' : κ} (v : α) (hne : k ≠ k') :
    lookupKey k' (insertKey l k v) = lookupKey k' l := by
  unfold insertKey
  by_cases h : containsKey k l
  · simpa [h] using lookupKey_map_overwrite_other v l hne
  · simp [h, lookupKey_append, lookupKey, hne]

theorem firstFromEnd_cons {α : Type} (k : String) (e : String × α)
    (t : List (String × α)) :
    firstFromEnd k (e :: t) =
      (firstFromEnd k t).or (if e.1 = k then some e.2 else none) := by
  cases h : firstFromEnd k t with
  | none => simp [firstFromEnd, h]
  | some v => simp [firstFromEnd, h]

theorem lookupKey_insertFiltered {β α : Type} (g : β → Option (String × α))
    (l : List β) (init : List (String × α)) (k : String) :
    lookupKey k (insertFiltered g l init) =
      (firstFromEnd k (l.filterMap g)).or (lookupKey k init) := by
  induction l generalizing init with
  | nil => simp [insertFiltered, firstFromEnd]
  | cons b rest ih =>
    cases hg : g b with
    | none =>
      simp only [insertFiltered, List.foldl_cons, hg]
      simpa [List.filterMap_cons, hg] using ih init
    | some e =>
      simp only [insertFiltered, List.foldl_cons, hg]
      have step : lookupKey k (insertKey init e.1 e.2) =
          (if e.1 = k then some e.2 else none).or (lookupKey k init) := by
        by_cases he : e.1 = k
        · subst he
          simp [lookupKey_insertKey_self]
        · simp [lookupKey_insertKey_other init e.2 he, he]
      have := ih (insertKey init e.1 e.2)
      simp only [insertFiltered] at this
      rw [this, step, List.filterMap_cons, hg, firstFromEnd_cons]
      cases firstFromEnd k (rest.filterMap g) <;> simp

theorem firstFromEnd_eq_none {α : Type} (k : String) (l : List (String × α))
    (h : ∀ e ∈ l, e.1 ≠ k) : firstFromEnd k l = none := by
  induction l with
  | nil => rfl
  | cons e rest ih =>
    rw [firstFromEnd_cons, ih (fun e' he' => h e' (List.mem_cons_of_mem _ he'))]
    simp [h e (List.mem_cons_self e rest)]

theorem firstFromEnd_isSome_iff {α : Type} (k : String) (l : List (String × α)) :
    (firstFromEnd k l).isSome = true ↔ ∃ e ∈ l, e.1 = k := by
  induction l with
  | nil => simp [firstFromEnd]
  | cons e rest ih =>
    rw [firstFromEnd_cons]
    by_cases he : e.1 = k
    · cases h : firstFromEnd k rest <;> simp [he, Option.or]
    · cases h : firstFromEnd k rest <;>
        simp [he, Option.or, ← ih, h]

theorem firstFromEnd_filterMap_keyed {β α : Type} (κf : β → String)
    (g : β → Option (String × α)) (hg : ∀ b e, g b = some e → e.1 = κf b)
    (l : List β) (hnd : (l.map κf).Nodup) {b : β} (hb : b ∈ l) :
    firstFromEnd (κf b) (l.filterMap g) = (g b).map Prod.snd := by
  induction l with
  | nil => simp at hb
  | cons b' rest ih =>
    have hnd' : (rest.map κf).Nodup := (List.nodup_cons.mp hnd).2
    have hhead : κf b' ∉ rest.map κf := (List.nodup_cons.mp hnd).1
    rcases List.mem_cons.mp hb with hb | hb
    · subst hb
      have hnone : firstFromEnd (κf b) (rest.filterMap g) = none := by
        apply firstFromEnd_eq_none
        intro e he hk
        rcases List.mem_filterMap.mp he with ⟨b'', hb'', hge⟩
        apply hhead
        rw [← hk, hg b'' e hge]
        exact List.mem_map.mpr ⟨b'', hb'', rfl⟩
      cases hgb : g b with
      | none => simp [List.filterMap_cons, hgb, hnone]
      | some e =>
        rw [List.filterMap_cons, hgb, firstFromEnd_cons, hnone]
        simp [hg b e hgb]
    · have hne : κf b ≠ κf b' := by
        intro hk
        exact hhead (hk ▸ List.mem_map.mpr ⟨b, hb, rfl⟩)
      cases hgb : g b' with
      | none => simpa [List.filterMap_cons, hgb] using ih hnd' hb
      | some e =>
        rw [List.filterMap_cons, hgb, firstFromEnd_cons]
        have hke : e.1 ≠ κf b := by
          rw [hg b' e hgb]
          exact fun h => hne h.symm
        rw [ih hnd' hb]
        cases g b <;> simp [hke]

theorem firstFromEnd_filterMap_of_not_key {β α : Type} (κf : β → String)
    (g : β → Option (String × α)) (hg : ∀ b e, g b = some e → e.1 = κf b)
    (l : List β) {p : String} (hp : ∀ b ∈ l, κf b ≠ p) :
    firstFromEnd p (l.filterMap g) = none := by
  apply firstFromEnd_eq_none
  intro e he
  rcases List.mem_filterMap.mp he with ⟨b, hb, hge⟩
  rw [hg b e hge]
  exact hp b hb

theorem lookupKey_detect_changes (previous : List TrackedFile) (current : ScanMap)
    (k : String) :
    lookupKey k (detect_changes previous current) =
      (firstFromEnd k (previous.filterMap (deletedEntry current))).or
        (firstFromEnd k (current.filterMap (classifiedEntry previous))) := by
  unfold detect_changes
  rw [lookupKey_insertFiltered, lookupKey_insertFiltered]
  simp [lookupKey]

-- ==================== findPrev lemmas ====================

theorem findPrev_cons (f : TrackedFile) (rest : List TrackedFile) (p : String) :
    findPrev (f :: rest) p =
      (findPrev rest p).or (if f.relative_path = p then some f else none) := by
  cases h : findPrev rest p with
  | none => simp [findPrev, h]
  | some g => simp [findPrev, h]

theorem findPrev_eq_none (previous : List TrackedFile) (p : String)
    (h : ∀ f ∈ previous, f.relative_path ≠ p) : findPrev previous p = none := by
  induction previous with
  | nil => rfl
  | cons f rest ih =>
    rw [findPrev_cons, ih (fun g hg => h g (List.mem_cons_of_mem _ hg))]
    simp [h f (List.mem_cons_self f rest)]

theorem findPrev_of_mem (previous : List TrackedFile)
    (hnd : (previous.map TrackedFile.relative_path).Nodup)
    {f : TrackedFile} (hf : f ∈ previous) :
    findPrev previous f.relative_path = some f := by
  induction previous with
  | nil => simp at hf
  | cons g rest ih =>
    have hnd' : (rest.map TrackedFile.relative_path).Nodup := (List.nodup_cons.mp hnd).2
    have hhead : g.relative_path ∉ rest.map TrackedFile.relative_path :=
      (List.nodup_cons.mp hnd).1
    rcases List.mem_cons.mp hf with hf | hf
    · subst hf
      have hnone : findPrev rest f.relative_path = none := by
        apply findPrev_eq_none
        intro g' hg' hk
        exact hhead (hk ▸ List.mem_map.mpr ⟨g', hg', rfl⟩)
      rw [findPrev_cons, hnone]
      simp
    · have hne : f.relative_path ≠ g.relative_path := by
        intro hk
        exact hhead (hk ▸ List.mem_map.mpr ⟨f, hf, rfl⟩)
      rw [findPrev_cons, ih hnd' hf]
      simp

theorem mem_of_findPrev {previous : List TrackedFile} {p : String} {f : TrackedFile}
    (h : findPrev previous p = some f) : f ∈ previous ∧ f.relative_path = p := by
  induction previous with
  | nil => simp [findPrev] at h
  | cons g rest ih =>
    rw [findPrev_cons] at h
    cases hr : findPrev rest p with
    | some f' =>
      rw [hr] at h
      simp only [Option.or] at h
      cases h
      exact ⟨List.mem_cons_of_mem _ (ih hr).1, (ih hr).2⟩
    | none =>
      rw [hr] at h
      simp only [Option.or] at h
      by_cases hg : g.relative_path = p
      · rw [if_pos hg] at h
        cases h
        exact ⟨List.mem_cons_self _ _, hg⟩
      · rw [if_neg hg] at h
        cases h

-- ==================== detect_changes entry lemmas ====================

theorem classifiedEntry_key (previous : List TrackedFile)
    (pc : String × DetectedChange) (e : String × DetectedChange)
    (h : classifiedEntry previous pc = some e) : e.1 = pc.1 := by
  unfold classifiedEntry at h
  by_cases hc : classify_current previous pc.1 pc.2 = ChangeType.Unchanged
  · simp [hc] at h
  · simp [hc] at h
    rw [← h]

theorem deletedEntry_eq_some {current : ScanMap} {f : TrackedFile}
    {e : String × DetectedChange} :
    deletedEntry current f = some e ↔
      f.is_deleted = false ∧ containsKey f.relative_path current = false ∧
        e = (f.relative_path, deletedRecord f) := by
  unfold deletedEntry
  by_cases hc : f.is_deleted = false ∧ containsKey f.relative_path current = false
  · rw [if_pos hc]
    constructor
    · intro h
      injection h with h'
      exact ⟨hc.1, hc.2, h'.symm⟩
    · rintro ⟨_, _, he⟩
      rw [he]
  · rw [if_neg hc]
    constructor
    · intro h
      cases h
    · rintro ⟨h1, h2, _⟩
      exact absurd ⟨h1, h2⟩ hc

theorem deleted_part_none_of_mem_current (previous : List TrackedFile)
    (current : ScanMap) {p : String} {c : DetectedChange} (hpc : (p, c) ∈ current) :
    firstFromEnd p (previous.filterMap (deletedEntry current)) = none := by
  apply firstFromEnd_eq_none
  intro e he hk
  rcases List.mem_filterMap.mp he with ⟨f, _, hfe⟩
  rcases deletedEntry_eq_some.mp hfe with ⟨_, hnc, hef⟩
  have : containsKey p current = true := containsKey_of_mem hpc
  rw [hef] at hk
  simp only at hk
  rw [hk] at hnc
  rw [this] at hnc
  cases hnc

theorem classified_part_none_of_not_in_current (previous : List TrackedFile)
    (current : ScanMap) {p : String} (h : containsKey p current = false) :
    firstFromEnd p (current.filterMap (classifiedEntry previous)) = none := by
  apply firstFromEnd_eq_none
  intro e he hk
  rcases List.mem_filterMap.mp he with ⟨pc, hpc, hce⟩
  have hkey := classifiedEntry_key previous pc e hce
  have hc : containsKey pc.1 current = true := containsKey_of_mem (by simpa using hpc)
  rw [hkey] at hk
  rw [hk] at hc
  rw [h] at hc
  cases hc

theorem classified_part_at_current (previous : List TrackedFile) (current : ScanMap)
    (hcur : (current.map Prod.fst).Nodup) {p : String} {c : DetectedChange}
    (hpc : (p, c) ∈ current) :
    firstFromEnd p (current.filterMap (classifiedEntry previous)) =
      (classifiedEntry previous (p, c)).map Prod.snd := by
  simpa using
    firstFromEnd_filterMap_keyed Prod.fst (classifiedEntry previous)
      (fun pc e h => classifiedEntry_key previous pc e h) current hcur hpc

theorem deleted_part_at_row (previous : List TrackedFile) (current : ScanMap)
    (hprev : (previous.map TrackedFile.relative_path).Nodup) {f : TrackedFile}
    (hf : f ∈ previous) :
    firstFromEnd f.relative_path (previous.filterMap (deletedEntry current)) =
      (deletedEntry current f).map Prod.snd :=
  firstFromEnd_filterMap_keyed TrackedFile.relative_path (deletedEntry current)
    (fun b e h => by
      rcases deletedEntry_eq_some.mp h with ⟨_, _, hef⟩
      rw [hef]) previous hprev hf

-- ==================== Claim C1 ====================

/-- C1: detect_changes classifies each path present in current as New when
there is no previous record or the previous record is marked deleted (in
particular a deleted path that reappears is New, never Modified); as
Modified when a live previous record differs in size or modification time;
Unchanged entries are omitted from the result; and each previous record not
marked deleted whose path is absent from current is classified Deleted. -/
theorem C1_detect_changes_classification
    (previous : List TrackedFile) (current : ScanMap)
    (hprev : (previous.map TrackedFile.relative_path).Nodup)
    (hcur : (current.map Prod.fst).Nodup) :
    (∀ p c, (p, c) ∈ current →
      (findPrev previous p = none ∨
        ∃ f, findPrev previous p = some f ∧ f.is_deleted = true) →
      lookupKey p (detect_changes previous current) =
        some { c with change_type := ChangeType.New }) ∧
    (∀ p c f, (p, c) ∈ current → findPrev previous p = some f →
      f.is_deleted = false → (f.size ≠ c.size.getD 0 ∨ f.mtime_ms ≠ c.mtime) →
      lookupKey p (detect_changes previous current) =
        some { c with change_type := ChangeType.Modified }) ∧
    (∀ p c f, (p, c) ∈ current → findPrev previous p = some f →
      f.is_deleted = false → f.size = c.size.getD 0 → f.mtime_ms = c.mtime →
      lookupKey p (detect_changes previous current) = none) ∧
    (∀ f ∈ previous, f.is_deleted = false →
      containsKey f.relative_path current = false →
      lookupKey f.relative_path (detect_changes previous current) =
        some (deletedRecord f)) := by
  refine ⟨?_, ?_, ?_, ?_⟩
  · intro p c hpc hnew
    rw [lookupKey_detect_changes,
        deleted_part_none_of_mem_current previous current hpc,
        classified_part_at_current previous current hcur hpc]
    have hcl : classify_current previous p c = ChangeType.New := by
      rcases hnew with h | ⟨f, hf, hdel⟩
      · simp [classify_current, h]
      · simp [classify_current, hf, hdel]
    simp [classifiedEntry, hcl]
  · intro p c f hpc hf hdel hdiff
    rw [lookupKey_detect_changes,
        deleted_part_none_of_mem_current previous current hpc,
        classified_part_at_current previous current hcur hpc]
    have hcl : classify_current previous p c = ChangeType.Modified := by
      simp only [classify_current, hf]
      rw [if_neg (by simp [hdel]), if_pos hdiff]
    simp [classifiedEntry, hcl]
  · intro p c f hpc hf hdel hsz hmt
    rw [lookupKey_detect_changes,
        deleted_part_none_of_mem_current previous current hpc,
        classified_part_at_current previous current hcur hpc]
    have hcl : classify_current previous p c = ChangeType.Unchanged := by
      simp only [classify_current, hf]
      rw [if_neg (by simp [hdel]), if_neg (by simp [hsz, hmt])]
    simp [classifiedEntry, hcl]
  · intro f hf hdel hnc
    rw [lookupKey_detect_changes, deleted_part_at_row previous current hprev hf]
    have : deletedEntry current f = some (f.relative_path, deletedRecord f) :=
      deletedEntry_eq_some.mpr ⟨hdel, hnc, rfl⟩
    rw [this]
    simp [Option.or]

/-- Concrete instantiation of C1: a tracked non-deleted row for path a with
size 5 and mtime 10, scanned again with the same size and mtime, is omitted
from the result as Unchanged. -/
theorem C1_detect_changes_classification_witness :
    lookupKey "a"
      (detect_changes
        [{ id := 1, sync_pair_id := 1, relative_path := "a", size := 5,
           mtime_ms := some 10, etag := none, content_hash := none,
           is_deleted := false, last_seen_at := 0 }]
        [("a", { relative_path := "a", change_type := ChangeType.Unchanged,
                 size := some 5, mtime := some 10, hash := none })]) = none := by
  exact (C1_detect_changes_classification _ _ (by simp) (by simp)).2.2.1
    "a"
    { relative_path := "a", change_type := ChangeType.Unchanged,
      size := some 5, mtime := some 10, hash := none }
    { id := 1, sync_pair_id := 1, relative_path := "a", size := 5,
      mtime_ms := some 10, etag := none, content_hash := none,
      is_deleted := false, last_seen_at := 0 }
    (by simp) (by decide) (by decide) (by decide) (by decide)

-- ==================== Claim C3 ====================

/-- C3: when the previous tracked snapshot of the authoritative side is
empty, both preview_sync and the planning phase of run_sync put every
current entry of that side, classified New, into the single transfer queue
of the direction, with every other queue empty, whatever the other side or
the resync flag contain. -/
theorem C3_bootstrap_rule
    (pair : SyncPair) (is_resync : Bool)
    (local_previous remote_previous : List TrackedFile)
    (local_current remote_current : ScanMap) :
    (pair.sync_direction = SyncDirection.UploadOnly → local_previous = [] →
      preview_sync pair local_previous remote_previous local_current remote_current =
        { to_upload := bootstrapChanges local_current, to_download := [],
          to_delete_local := [], to_delete_remote := [] } ∧
      plan_sync pair is_resync local_previous remote_previous local_current
          remote_current =
        { to_upload := bootstrapChanges local_current, to_download := [],
          to_delete_local := [], to_delete_remote := [],
          skipped_local_deletions := [], skipped_remote_deletions := [] } ∧
      ∀ c ∈ bootstrapChanges local_current, c.change_type = ChangeType.New) ∧
    (pair.sync_direction = SyncDirection.DownloadOnly → remote_previous = [] →
      preview_sync pair local_previous remote_previous local_current remote_current =
        { to_upload := [], to_download := bootstrapChanges remote_current,
          to_delete_local := [], to_delete_remote := [] } ∧
      plan_sync pair is_resync local_previous remote_previous local_current
          remote_current =
        { to_upload := [], to_download := bootstrapChanges remote_current,
          to_delete_local := [], to_delete_remote := [],
          skipped_local_deletions := [], skipped_remote_deletions := [] } ∧
      ∀ c ∈ bootstrapChanges remote_current, c.change_type = ChangeType.New) := by
  constructor
  · intro hdir hempty
    subst hempty
    refine ⟨?_, ?_, ?_⟩
    · simp [preview_sync, hdir]
    · simp [plan_sync, hdir]
    · intro c hc
      rcases List.mem_map.mp hc with ⟨pc, _, rfl⟩
      rfl
  · intro hdir hempty
    subst hempty
    refine ⟨?_, ?_, ?_⟩
    · simp [preview_sync, hdir]
    · simp [plan_sync, hdir]
    · intro c hc
      rcases List.mem_map.mp hc with ⟨pc, _, rfl⟩
      rfl

/-- Concrete instantiation of C3: an upload-only pair with empty tracked
state previews exactly its two local files as New uploads. -/
theorem C3_bootstrap_rule_witness :
    preview_sync
      { id := 1, name := "p", local_path := "/d", account_id := "a",
        bucket := "b", remote_pfx := "", sync_direction := SyncDirection.UploadOnly,
        delete_propagation := true, status := SyncPairStatus.Idle,
        last_sync_at := none, last_error := none, created_at := 0 }
      [] []
      [("a.txt", { relative_path := "a.txt", change_type := ChangeType.Unchanged,
                   size := some 10, mtime := some 1, hash := none }),
       ("b.txt", { relative_path := "b.txt", change_type := ChangeType.Unchanged,
                   size := some 20, mtime := some 2, hash := none })]
      [] =
    { to_upload :=
        [{ relative_path := "a.txt", change_type := ChangeType.New,
           size := some 10, mtime := some 1, hash := none },
         { relative_path := "b.txt", change_type := ChangeType.New,
           size := some 20, mtime := some 2, hash := none }],
      to_download := [], to_delete_local := [], to_delete_remote := [] } := by
  rw [(C3_bootstrap_rule _ false [] [] _ [] |>.1 rfl rfl).1]
  rfl

-- ==================== Claim C5 ====================

/-- C5: for an UploadOnly pair neither preview_sync nor the run planner
ever fills the to_download or to_delete_local queues, and for a
DownloadOnly pair the to_upload and to_delete_remote queues stay empty, so
at most one transfer queue and one delete queue can be populated. -/
theorem C5_direction_exclusivity
    (pair : SyncPair) (is_resync : Bool)
    (local_previous remote_previous : List TrackedFile)
    (local_current remote_current : ScanMap) :
    (pair.sync_direction = SyncDirection.UploadOnly →
      (preview_sync pair local_previous remote_previous local_current
        remote_current).to_download = [] ∧
      (preview_sync pair local_previous remote_previous local_current
        remote_current).to_delete_local = [] ∧
      (plan_sync pair is_resync local_previous remote_previous local_current
        remote_current).to_download = [] ∧
      (plan_sync pair is_resync local_previous remote_previous local_current
        remote_current).to_delete_local = []) ∧
    (pair.sync_direction = SyncDirection.DownloadOnly →
      (preview_sync pair local_previous remote_previous local_current
        remote_current).to_upload = [] ∧
      (preview_sync pair local_previous remote_previous local_current
        remote_current).to_delete_remote = [] ∧
      (plan_sync pair is_resync local_previous remote_previous local_current
        remote_current).to_upload = [] ∧
      (plan_sync pair is_resync local_previous remote_previous local_current
        remote_current).to_delete_remote = []) := by
  constructor
  · intro hdir
    refine ⟨?_, ?_, ?_, ?_⟩ <;>
      · simp only [preview_sync, plan_sync, hdir]
        split <;> rfl
  · intro hdir
    refine ⟨?_, ?_, ?_, ?_⟩ <;>
      · simp only [preview_sync, plan_sync, hdir]
        split <;> rfl

/-- Concrete instantiation of C5: an upload-only pair never previews
downloads. -/
theorem C5_direction_exclusivity_witness :
    (preview_sync
      { id := 1, name := "p", local_path := "/d", account_id := "a",
        bucket := "b", remote_pfx := "", sync_direction := SyncDirection.UploadOnly,
        delete_propagation := false, status := SyncPairStatus.Idle,
        last_sync_at := none, last_error := none, created_at := 0 }
      [] [] [] []).to_download = [] :=
  (C5_direction_exclusivity _ false [] [] [] [] |>.1 rfl).1

-- ==================== Claim C6 ====================

/-- C6 counterexample: a run terminated by a cancellation poll leaves its
session in status Running, not Cancelled; no code path ever writes the
Cancelled status. -/
theorem C6_session_lifecycle_counterexample :
    (session_after_run 5 RunOutcome.cancelledEarly create_sync_session_row).status =
      SyncSessionStatus.Running ∧
    (session_after_run 5 RunOutcome.cancelledEarly create_sync_session_row).status ≠
      SyncSessionStatus.Cancelled := by
  exact ⟨rfl, by decide⟩

/-- C6 amended: every start creates a session with status Running; a run
reaching its end moves it to Completed and a failed run to Failed, but a
run terminated by a cancellation poll leaves the session in Running
forever (it is never transitioned to Cancelled). -/
theorem C6_session_lifecycle_amended :
    create_sync_session_row.status = SyncSessionStatus.Running ∧
    (∀ now : Int,
      (session_after_run now RunOutcome.finished create_sync_session_row).status =
        SyncSessionStatus.Completed) ∧
    (∀ (now : Int) (msg : String),
      (session_after_run now (RunOutcome.errored msg) create_sync_session_row).status =
        SyncSessionStatus.Failed) ∧
    (∀ now : Int,
      (session_after_run now RunOutcome.cancelledEarly create_sync_session_row).status =
        SyncSessionStatus.Running) :=
  ⟨rfl, fun _ => rfl, fun _ _ => rfl, fun _ => rfl⟩

-- ==================== Claim C8 ====================

theorem insertFiltered_append {β α : Type} (g : β → Option (String × α))
    (l₁ l₂ : List β) (init : List (String × α)) :
    insertFiltered g (l₁ ++ l₂) init = insertFiltered g l₂ (insertFiltered g l₁ init) := by
  simp [insertFiltered, List.foldl_append]

theorem pages_fold_eq_join {β α : Type} (g : β → Option (String × α))
    (pages : List (List β)) (init : List (String × α)) :
    pages.foldl (fun files page => insertFiltered g page files) init =
      insertFiltered g pages.flatten init := by
  induction pages generalizing init with
  | nil => simp [insertFiltered]
  | cons page rest ih =>
    rw [List.foldl_cons, ih, List.flatten_cons, insertFiltered_append]

theorem remoteEntry_eq_some {pfx : String} {obj : S3Object}
    {e : String × DetectedChange} :
    remoteEntry pfx obj = some e ↔
      endsWithSep obj.key = false ∧
        e = (stripRelative (pfxLenOf pfx) obj.key,
          { relative_path := stripRelative (pfxLenOf pfx) obj.key,
            change_type := ChangeType.Unchanged, size := obj.size,
            mtime := obj.last_modified_secs.map (· * 1000),
            hash := obj.e_tag.map (trimChar '"') }) := by
  unfold remoteEntry
  by_cases h : endsWithSep obj.key
  · simp [h]
  · simp only [h, Bool.false_eq_true, if_false, Option.some.injEq,
      Bool.not_eq_true] at h ⊢
    simp [h, eq_comm]

/-- C8 counterexample: a zero-length object whose key does not end in the
separator is kept in the remote scan result; zero-length marker objects
are not excluded. -/
theorem C8_remote_scan_counterexample :
    containsKey "marker"
      (scan_remote_files "" [[{
        key := "marker", size := some 0,
        last_modified_secs := none, e_tag := none }]]) = true := by
  decide

/-- C8 amended: the remote scan keys are exactly the listed keys with the
configured prefix and the leading separators stripped, for the objects
whose key does not end in the separator; a zero-length object whose key
does not end in the separator is therefore included, not excluded. -/
theorem C8_remote_scan_amended (pfx : String) (pages : List (List S3Object))
    (k : String) :
    containsKey k (scan_remote_files pfx pages) = true ↔
      ∃ obj ∈ pages.flatten, endsWithSep obj.key = false ∧
        stripRelative (pfxLenOf pfx) obj.key = k := by
  unfold scan_remote_files
  rw [pages_fold_eq_join]
  unfold containsKey
  rw [lookupKey_insertFiltered]
  simp only [lookupKey_nil, Option.or_none]
  rw [firstFromEnd_isSome_iff]
  constructor
  · rintro ⟨e, he, hk⟩
    rcases List.mem_filterMap.mp he with ⟨obj, hobj, hoe⟩
    rcases remoteEntry_eq_some.mp hoe with ⟨hend, rfl⟩
    exact ⟨obj, hobj, hend, by simpa using hk⟩
  · rintro ⟨obj, hobj, hend, hstrip⟩
    refine ⟨_, List.mem_filterMap.mpr ⟨obj, hobj, remoteEntry_eq_some.mpr ⟨hend, rfl⟩⟩, ?_⟩
    simpa using hstrip

-- ==================== Claim C9 ====================

/-- C9: a start_sync call for a pair that is present in the active-sync map
fails synchronously with the already-in-progress error and leaves the state
untouched: no session row is created and nothing is queued. -/
theorem C9_already_running_guard (st : AppState) (pair_id : Int) (pr : PairRow)
    (hpair : lookupKey pair_id st.pairs = some pr)
    (hactive : containsKey pair_id st.active_syncs = true) :
    start_sync st pair_id = (st, Except.error "Sync already in progress") := by
  unfold start_sync
  rw [hpair]
  simp [hactive]

/-- Concrete instantiation of C9: pair 1 is active, so a second start
returns the already-in-progress error without touching the state. -/
theorem C9_already_running_guard_witness :
    start_sync
      { active_syncs := [(1, false)],
        pairs := [(1, { status := SyncPairStatus.Syncing, last_error := none })],
        sessions := [create_sync_session_row] } 1 =
    ({ active_syncs := [(1, false)],
       pairs := [(1, { status := SyncPairStatus.Syncing, last_error := none })],
       sessions := [create_sync_session_row] },
     Except.error "Sync already in progress") := by
  exact C9_already_running_guard _ 1
    { status := SyncPairStatus.Syncing, last_error := none } (by decide) (by decide)

-- ==================== Claim C10 ====================

theorem lookupKey_map_update {κ α : Type} [DecidableEq κ] (k : κ) (upd : α → α)
    (l : List (κ × α)) :
    lookupKey k (l.map (fun e => if e.1 = k then (e.1, upd e.2) else e)) =
      (lookupKey k l).map upd := by
  induction l with
  | nil => rfl
  | cons e rest ih =>
    by_cases he : e.1 = k <;> simp [lookupKey, he, ih]

/-- C10: cancel_sync always returns Ok and sets the stored status of the
pair to Idle whether or not a sync is active, while the SQL update touches
only the status column, leaving last_error unchanged. -/
theorem C10_cancel_sync_unconditional (st : AppState) (pair_id : Int) :
    (cancel_sync st pair_id).2 = Except.ok () ∧
    (∀ pr, lookupKey pair_id st.pairs = some pr →
      lookupKey pair_id (cancel_sync st pair_id).1.pairs =
        some { pr with status := SyncPairStatus.Idle } ∧
      ({ pr with status := SyncPairStatus.Idle } : PairRow).last_error =
        pr.last_error) := by
  constructor
  · rfl
  · intro pr hpr
    refine ⟨?_, rfl⟩
    show lookupKey pair_id
      (st.pairs.map (fun e =>
        if e.1 = pair_id then (e.1, { e.2 with status := SyncPairStatus.Idle })
        else e)) = _
    rw [lookupKey_map_update pair_id (fun r => { r with status := SyncPairStatus.Idle })
      st.pairs, hpr]
    rfl

/-- Concrete instantiation of C10: cancelling an idle pair in Error status
with no active sync overwrites the status with Idle and keeps last_error. -/
theorem C10_cancel_sync_unconditional_witness :
    lookupKey 1 (cancel_sync
      { active_syncs := [],
        pairs := [(1, { status := SyncPairStatus.Error, last_error := some "boom" })],
        sessions := [] } 1).1.pairs =
    some { status := SyncPairStatus.Idle, last_error := some "boom" } := by
  exact ((C10_cancel_sync_unconditional _ 1).2
    { status := SyncPairStatus.Error, last_error := some "boom" } (by decide)).1

-- ==================== Row-level lemmas on the state store ====================

theorem option_or_assoc {α : Type} (a b c : Option α) :
    (a.or b).or c = a.or (b.or c) := by
  cases a <;> rfl

theorem option_map_or {α β : Type} (g : α → β) (a b : Option α) :
    (a.or b).map g = (a.map g).or (b.map g) := by
  cases a <;> rfl

theorem findPrev_append (l₁ l₂ : List TrackedFile) (p : String) :
    findPrev (l₁ ++ l₂) p = (findPrev l₂ p).or (findPrev l₁ p) := by
  induction l₁ with
  | nil =>
    rw [List.nil_append]
    show findPrev l₂ p = (findPrev l₂ p).or none
    cases findPrev l₂ p <;> rfl
  | cons f rest ih =>
    rw [List.cons_append, findPrev_cons, ih, findPrev_cons, option_or_assoc]

theorem containsPath_eq (path : String) (rows : List TrackedFile) :
    containsPath path rows = (findPrev rows path).isSome := by
  induction rows with
  | nil => rfl
  | cons f rest ih =>
    rw [findPrev_cons]
    show (decide (f.relative_path = path) || containsPath path rest) = _
    rw [ih]
    cases h : findPrev rest path with
    | some g => simp [Option.or]
    | none =>
      by_cases hf : f.relative_path = path <;> simp [Option.or, hf]

theorem findPrev_updateRow_self (upd : TrackedFile → TrackedFile)
    (hupd : ∀ f, (upd f).relative_path = f.relative_path)
    (p : String) (rows : List TrackedFile) :
    findPrev (updateRow upd p rows) p = (findPrev rows p).map upd := by
  induction rows with
  | nil => rfl
  | cons f rest ih =>
    show findPrev ((if f.relative_path = p then upd f else f) :: updateRow upd p rest) p = _
    rw [findPrev_cons, findPrev_cons, ih, option_map_or]
    by_cases hf : f.relative_path = p
    · simp [hf, hupd]
    · simp [hf, hupd]

theorem findPrev_updateRow_other (upd : TrackedFile → TrackedFile)
    (hupd : ∀ f, (upd f).relative_path = f.relative_path)
    {p q : String} (hne : q ≠ p) (rows : List TrackedFile) :
    findPrev (updateRow upd p rows) q = findPrev rows q := by
  induction rows with
  | nil => rfl
  | cons f rest ih =>
    show findPrev ((if f.relative_path = p then upd f else f) :: updateRow upd p rest) q = _
    rw [findPrev_cons, findPrev_cons, ih]
    by_cases hf : f.relative_path = p
    · rw [if_pos hf]
      have h1 : ¬(upd f).relative_path = q := by
        rw [hupd, hf]
        exact fun h => hne h.symm
      have h2 : ¬f.relative_path = q := by
        rw [hf]
        exact fun h => hne h.symm
      rw [if_neg h1, if_neg h2]
    · rw [if_neg hf]

theorem findPrev_save_local_self (rows : List TrackedFile)
    (pid : Int) (path : String) (size : Int) (mtime : Int)
    (hash : Option String) (now : Int) :
    ∃ f, findPrev (save_local_file_state rows pid path size mtime hash now) path =
        some f ∧
      f.relative_path = path ∧ f.size = size ∧ f.mtime_ms = some mtime ∧
      f.content_hash = hash ∧ f.is_deleted = false := by
  unfold save_local_file_state
  by_cases hc : containsPath path rows
  · rw [if_pos hc]
    rw [containsPath_eq] at hc
    cases hf : findPrev rows path with
    | none => rw [hf] at hc; cases hc
    | some f0 =>
      rw [findPrev_updateRow_self
        (fun f => { f with
          size := size, mtime_ms := some mtime,
          content_hash := hash, is_deleted := false, last_seen_at := now })
        (fun f => rfl) path rows, hf]
      exact ⟨_, rfl, (mem_of_findPrev hf).2, rfl, rfl, rfl, rfl⟩
  · rw [if_neg hc]
    refine ⟨{
      id := 0, sync_pair_id := pid, relative_path := path, size := size,
      mtime_ms := some mtime, etag := none, content_hash := hash,
      is_deleted := false, last_seen_at := now }, ?_, rfl, rfl, rfl, rfl, rfl⟩
    rw [findPrev_append, findPrev_cons, if_pos rfl]
    rfl

theorem findPrev_save_local_other (rows : List TrackedFile)
    (pid : Int) {path q : String} (hne : q ≠ path) (size : Int) (mtime : Int)
    (hash : Option String) (now : Int) :
    findPrev (save_local_file_state rows pid path size mtime hash now) q =
      findPrev rows q := by
  unfold save_local_file_state
  by_cases hc : containsPath path rows
  · rw [if_pos hc]
    exact findPrev_updateRow_other
      (fun f => { f with
        size := size, mtime_ms := some mtime,
        content_hash := hash, is_deleted := false, last_seen_at := now })
      (fun f => rfl) hne rows
  · rw [if_neg hc, findPrev_append, findPrev_cons, if_neg (Ne.symm hne)]
    cases findPrev rows q <;> rfl

theorem findPrev_save_remote_self (rows : List TrackedFile)
    (pid : Int) (path : String) (size : Int) (etag : Option String)
    (last_modified : Option Int) (hash : Option String) (now : Int) :
    ∃ f, findPrev (save_remote_file_state rows pid path size etag last_modified
        hash now) path = some f ∧
      f.relative_path = path ∧ f.size = size ∧ f.mtime_ms = last_modified ∧
      f.etag = etag ∧ f.content_hash = hash ∧ f.is_deleted = false := by
  unfold save_remote_file_state
  by_cases hc : containsPath path rows
  · rw [if_pos hc]
    rw [containsPath_eq] at hc
    cases hf : findPrev rows path with
    | none => rw [hf] at hc; cases hc
    | some f0 =>
      rw [findPrev_updateRow_self
        (fun f => { f with
          size := size, etag := etag, mtime_ms := last_modified,
          content_hash := hash, is_deleted := false, last_seen_at := now })
        (fun f => rfl) path rows, hf]
      exact ⟨_, rfl, (mem_of_findPrev hf).2, rfl, rfl, rfl, rfl, rfl⟩
  · rw [if_neg hc]
    refine ⟨{
      id := 0, sync_pair_id := pid, relative_path := path, size := size,
      mtime_ms := last_modified, etag := etag, content_hash := hash,
      is_deleted := false, last_seen_at := now }, ?_, rfl, rfl, rfl, rfl, rfl, rfl⟩
    rw [findPrev_append, findPrev_cons, if_pos rfl]
    rfl

theorem findPrev_save_remote_other (rows : List TrackedFile)
    (pid : Int) {path q : String} (hne : q ≠ path) (size : Int)
    (etag : Option String) (last_modified : Option Int) (hash : Option String)
    (now : Int) :
    findPrev (save_remote_file_state rows pid path size etag last_modified hash
      now) q = findPrev rows q := by
  unfold save_remote_file_state
  by_cases hc : containsPath path rows
  · rw [if_pos hc]
    exact findPrev_updateRow_other
      (fun f => { f with
        size := size, etag := etag, mtime_ms := last_modified,
        content_hash := hash, is_deleted := false, last_seen_at := now })
      (fun f => rfl) hne rows
  · rw [if_neg hc, findPrev_append, findPrev_cons, if_neg (Ne.symm hne)]
    cases findPrev rows q <;> rfl

theorem findPrev_mark_self (rows : List TrackedFile) (path : String) (now : Int) :
    findPrev (mark_file_deleted rows path now) path =
      (findPrev rows path).map (markUpd now) :=
  findPrev_updateRow_self (markUpd now) (fun f => rfl) path rows

theorem findPrev_mark_other (rows : List TrackedFile) {path q : String}
    (hne : q ≠ path) (now : Int) :
    findPrev (mark_file_deleted rows path now) q = findPrev rows q :=
  findPrev_updateRow_other (markUpd now) (fun f => rfl) hne rows

-- ==================== Phase projections of execute_plan ====================

theorem upload_phase_eq (env : FsEnv) (pid now : Int) (cs : List DetectedChange)
    (st : List TrackedFile × List TrackedFile) :
    cs.foldl (upload_step env pid now) st =
      (uploadLocalFold env pid now cs st.1, uploadRemoteFold env pid now cs st.2) := by
  induction cs generalizing st with
  | nil => simp [uploadLocalFold, uploadRemoteFold]
  | cons c rest ih =>
    rw [List.foldl_cons, ih]
    rfl

theorem download_phase_eq (env : FsEnv) (pid now : Int) (cs : List DetectedChange)
    (st : List TrackedFile × List TrackedFile) :
    cs.foldl (download_step env pid now) st =
      (downloadLocalFold env pid now cs st.1,
       downloadRemoteFold env pid now cs st.2) := by
  induction cs generalizing st with
  | nil => simp [downloadLocalFold, downloadRemoteFold]
  | cons c rest ih =>
    rw [List.foldl_cons, ih]
    by_cases hb : env.remoteExists c.relative_path = true
    · simp [download_step, downloadLocalFold, downloadRemoteFold, hb]
    · simp [download_step, downloadLocalFold, downloadRemoteFold, hb]

theorem delete_phase_eq (now : Int) (cs : List DetectedChange)
    (st : List TrackedFile × List TrackedFile) :
    cs.foldl (delete_action_step now) st =
      (markFold now cs st.1, markFold now cs st.2) := by
  induction cs generalizing st with
  | nil => simp [markFold]
  | cons c rest ih =>
    rw [List.foldl_cons, ih]
    rfl

theorem skip_local_phase_eq (now : Int) (cs : List DetectedChange)
    (st : List TrackedFile × List TrackedFile) :
    cs.foldl (fun s c => (mark_file_deleted s.1 c.relative_path now, s.2)) st =
      (markFold now cs st.1, st.2) := by
  induction cs generalizing st with
  | nil => simp [markFold]
  | cons c rest ih =>
    rw [List.foldl_cons, ih]
    rfl

theorem skip_remote_phase_eq (now : Int) (cs : List DetectedChange)
    (st : List TrackedFile × List TrackedFile) :
    cs.foldl (fun s c => (s.1, mark_file_deleted s.2 c.relative_path now)) st =
      (st.1, markFold now cs st.2) := by
  induction cs generalizing st with
  | nil => simp [markFold]
  | cons c rest ih =>
    rw [List.foldl_cons, ih]
    rfl

theorem execute_plan_eq (env : FsEnv) (pid now : Int) (plan : SyncPlan)
    (lrows rrows : List TrackedFile) :
    execute_plan env pid now plan lrows rrows =
      (markFold now plan.skipped_local_deletions
        (markFold now plan.to_delete_remote
          (markFold now plan.to_delete_local
            (downloadLocalFold env pid now plan.to_download
              (uploadLocalFold env pid now plan.to_upload lrows)))),
       markFold now plan.skipped_remote_deletions
        (markFold now plan.to_delete_remote
          (markFold now plan.to_delete_local
            (downloadRemoteFold env pid now plan.to_download
              (uploadRemoteFold env pid now plan.to_upload rrows))))) := by
  unfold execute_plan
  dsimp only
  rw [upload_phase_eq, download_phase_eq, delete_phase_eq, delete_phase_eq,
    skip_local_phase_eq, skip_remote_phase_eq]

-- ==================== Fold-level lookup lemmas ====================

theorem markFold_cons (now : Int) (c : DetectedChange) (cs : List DetectedChange)
    (rows : List TrackedFile) :
    markFold now (c :: cs) rows =
      markFold now cs (mark_file_deleted rows c.relative_path now) := rfl

theorem uploadLocalFold_cons (env : FsEnv) (pid now : Int) (c : DetectedChange)
    (cs : List DetectedChange) (rows : List TrackedFile) :
    uploadLocalFold env pid now (c :: cs) rows =
      uploadLocalFold env pid now cs
        (save_local_file_state rows pid c.relative_path
          (env.readSize c.relative_path)
          (c.mtime.getD ((env.statMtime c.relative_path).getD 0)) none now) := rfl

theorem downloadRemoteFold_cons (env : FsEnv) (pid now : Int) (c : DetectedChange)
    (cs : List DetectedChange) (rows : List TrackedFile) :
    downloadRemoteFold env pid now (c :: cs) rows =
      downloadRemoteFold env pid now cs
        (if env.remoteExists c.relative_path then
          save_remote_file_state rows pid c.relative_path
            (env.bodySize c.relative_path) c.hash c.mtime none now
        else rows) := rfl

theorem findPrev_markFold_not_mem (now : Int) (cs : List DetectedChange)
    (rows : List TrackedFile) {q : String}
    (hq : ∀ c ∈ cs, c.relative_path ≠ q) :
    findPrev (markFold now cs rows) q = findPrev rows q := by
  induction cs generalizing rows with
  | nil => rfl
  | cons c rest ih =>
    rw [markFold_cons,
      ih _ (fun c' hc' => hq c' (List.mem_cons_of_mem _ hc')),
      findPrev_mark_other rows (Ne.symm (hq c (List.mem_cons_self c rest))) now]

theorem findPrev_markFold_mem (now : Int) (cs : List DetectedChange)
    (rows : List TrackedFile) {q : String}
    (hnd : (cs.map DetectedChange.relative_path).Nodup)
    (hq : ∃ c ∈ cs, c.relative_path = q) :
    findPrev (markFold now cs rows) q = (findPrev rows q).map (markUpd now) := by
  induction cs generalizing rows with
  | nil => simp at hq
  | cons c rest ih =>
    rcases hq with ⟨c0, hc0, hc0q⟩
    rcases List.mem_cons.mp hc0 with rfl | hc0r
    · subst hc0q
      have hrest : ∀ c' ∈ rest, c'.relative_path ≠ c0.relative_path := by
        intro c' hc' hk
        exact (List.nodup_cons.mp hnd).1 (hk ▸ List.mem_map.mpr ⟨c', hc', rfl⟩)
      rw [markFold_cons, findPrev_markFold_not_mem now rest _ hrest,
        findPrev_mark_self rows c0.relative_path now]
    · have hne : q ≠ c.relative_path := by
        intro hk
        exact (List.nodup_cons.mp hnd).1
          (hk ▸ hc0q ▸ List.mem_map.mpr ⟨c0, hc0r, rfl⟩)
      rw [markFold_cons, ih _ (List.nodup_cons.mp hnd).2 ⟨c0, hc0r, hc0q⟩,
        findPrev_mark_other rows hne now]

theorem findPrev_uploadLocalFold_not_mem (env : FsEnv) (pid now : Int)
    (cs : List DetectedChange) (rows : List TrackedFile) {q : String}
    (hq : ∀ c ∈ cs, c.relative_path ≠ q) :
    findPrev (uploadLocalFold env pid now cs rows) q = findPrev rows q := by
  induction cs generalizing rows with
  | nil => rfl
  | cons c rest ih =>
    rw [uploadLocalFold_cons,
      ih _ (fun c' hc' => hq c' (List.mem_cons_of_mem _ hc')),
      findPrev_save_local_other rows pid
        (Ne.symm (hq c (List.mem_cons_self c rest))) _ _ _ _]

theorem findPrev_uploadLocalFold_mem (env : FsEnv) (pid now : Int)
    (cs : List DetectedChange) (rows : List TrackedFile) {c : DetectedChange}
    (hnd : (cs.map DetectedChange.relative_path).Nodup) (hc : c ∈ cs) :
    ∃ f, findPrev (uploadLocalFold env pid now cs rows) c.relative_path = some f ∧
      f.relative_path = c.relative_path ∧
      f.size = env.readSize c.relative_path ∧
      f.mtime_ms = some (c.mtime.getD ((env.statMtime c.relative_path).getD 0)) ∧
      f.is_deleted = false := by
  induction cs generalizing rows with
  | nil => simp at hc
  | cons c' rest ih =>
    rcases List.mem_cons.mp hc with rfl | hcr
    · have hrest : ∀ c'' ∈ rest, c''.relative_path ≠ c.relative_path := by
        intro c'' hc'' hk
        exact (List.nodup_cons.mp hnd).1 (hk ▸ List.mem_map.mpr ⟨c'', hc'', rfl⟩)
      rw [uploadLocalFold_cons, findPrev_uploadLocalFold_not_mem env pid now rest _ hrest]
      obtain ⟨f, h1, h2, h3, h4, h5, h6⟩ :=
        findPrev_save_local_self rows pid c.relative_path
          (env.readSize c.relative_path)
          (c.mtime.getD ((env.statMtime c.relative_path).getD 0)) none now
      exact ⟨f, h1, h2, h3, h4, h6⟩
    · exact ih _ (List.nodup_cons.mp hnd).2 hcr

theorem findPrev_downloadRemoteFold_not_mem (env : FsEnv) (pid now : Int)
    (cs : List DetectedChange) (rows : List TrackedFile) {q : String}
    (hq : ∀ c ∈ cs, c.relative_path ≠ q) :
    findPrev (downloadRemoteFold env pid now cs rows) q = findPrev rows q := by
  induction cs generalizing rows with
  | nil => rfl
  | cons c rest ih =>
    rw [downloadRemoteFold_cons,
      ih _ (fun c' hc' => hq c' (List.mem_cons_of_mem _ hc'))]
    by_cases hb : env.remoteExists c.relative_path = true
    · rw [if_pos hb,
        findPrev_save_remote_other rows pid
          (Ne.symm (hq c (List.mem_cons_self c rest))) _ _ _ _ _]
    · rw [if_neg hb]

theorem findPrev_downloadRemoteFold_mem (env : FsEnv) (pid now : Int)
    (cs : List DetectedChange) (rows : List TrackedFile) {c : DetectedChange}
    (hnd : (cs.map DetectedChange.relative_path).Nodup) (hc : c ∈ cs)
    (hex : env.remoteExists c.relative_path = true) :
    ∃ f, findPrev (downloadRemoteFold env pid now cs rows) c.relative_path =
        some f ∧
      f.relative_path = c.relative_path ∧
      f.size = env.bodySize c.relative_path ∧
      f.mtime_ms = c.mtime ∧ f.etag = c.hash ∧ f.is_deleted = false := by
  induction cs generalizing rows with
  | nil => simp at hc
  | cons c' rest ih =>
    rcases List.mem_cons.mp hc with rfl | hcr
    · have hrest : ∀ c'' ∈ rest, c''.relative_path ≠ c.relative_path := by
        intro c'' hc'' hk
        exact (List.nodup_cons.mp hnd).1 (hk ▸ List.mem_map.mpr ⟨c'', hc'', rfl⟩)
      rw [downloadRemoteFold_cons,
        findPrev_downloadRemoteFold_not_mem env pid now rest _ hrest, if_pos hex]
      obtain ⟨f, h1, h2, h3, h4, h5, h6, h7⟩ :=
        findPrev_save_remote_self rows pid c.relative_path
          (env.bodySize c.relative_path) c.hash c.mtime none now
      exact ⟨f, h1, h2, h3, h4, h5, h7⟩
    · exact ih _ (List.nodup_cons.mp hnd).2 hcr

-- ==================== Path lists of the state store ====================

theorem rowPaths_updateRow (upd : TrackedFile → TrackedFile)
    (hupd : ∀ f, (upd f).relative_path = f.relative_path) (p : String)
    (rows : List TrackedFile) :
    (updateRow upd p rows).map TrackedFile.relative_path =
      rows.map TrackedFile.relative_path := by
  induction rows with
  | nil => rfl
  | cons f rest ih =>
    show ((if f.relative_path = p then upd f else f) :: updateRow upd p rest).map _ = _
    rw [List.map_cons, List.map_cons, ih]
    by_cases hf : f.relative_path = p
    · rw [if_pos hf, hupd]
    · rw [if_neg hf]

theorem containsPath_false_iff (path : String) (rows : List TrackedFile) :
    containsPath path rows = false ↔ ∀ f ∈ rows, f.relative_path ≠ path := by
  simp [containsPath]

theorem rowPaths_save_local (rows : List TrackedFile) (pid : Int) (path : String)
    (size mtime : Int) (hash : Option String) (now : Int) :
    (save_local_file_state rows pid path size mtime hash now).map
        TrackedFile.relative_path = rows.map TrackedFile.relative_path ∨
    ((save_local_file_state rows pid path size mtime hash now).map
        TrackedFile.relative_path = rows.map TrackedFile.relative_path ++ [path] ∧
      path ∉ rows.map TrackedFile.relative_path) := by
  unfold save_local_file_state
  by_cases hc : containsPath path rows
  · left
    rw [if_pos hc]
    exact rowPaths_updateRow
      (fun f => { f with
        size := size, mtime_ms := some mtime,
        content_hash := hash, is_deleted := false, last_seen_at := now })
      (fun f => rfl) path rows
  · right
    rw [if_neg hc]
    have hnot := (containsPath_false_iff path rows).mp (by simpa using hc)
    constructor
    · simp
    · intro hmem
      rcases List.mem_map.mp hmem with ⟨f, hf, hfp⟩
      exact hnot f hf hfp

theorem rowPaths_save_remote (rows : List TrackedFile) (pid : Int) (path : String)
    (size : Int) (etag : Option String) (last_modified : Option Int)
    (hash : Option String) (now : Int) :
    (save_remote_file_state rows pid path size etag last_modified hash now).map
        TrackedFile.relative_path = rows.map TrackedFile.relative_path ∨
    ((save_remote_file_state rows pid path size etag last_modified hash now).map
        TrackedFile.relative_path = rows.map TrackedFile.relative_path ++ [path] ∧
      path ∉ rows.map TrackedFile.relative_path) := by
  unfold save_remote_file_state
  by_cases hc : containsPath path rows
  · left
    rw [if_pos hc]
    exact rowPaths_updateRow
      (fun f => { f with
        size := size, etag := etag, mtime_ms := last_modified,
        content_hash := hash, is_deleted := false, last_seen_at := now })
      (fun f => rfl) path rows
  · right
    rw [if_neg hc]
    have hnot := (containsPath_false_iff path rows).mp (by simpa using hc)
    constructor
    · simp
    · intro hmem
      rcases List.mem_map.mp hmem with ⟨f, hf, hfp⟩
      exact hnot f hf hfp

theorem nodup_of_paths_or (rows newrows : List TrackedFile) (path : String)
    (h : newrows.map TrackedFile.relative_path = rows.map TrackedFile.relative_path ∨
      (newrows.map TrackedFile.relative_path =
        rows.map TrackedFile.relative_path ++ [path] ∧
        path ∉ rows.map TrackedFile.relative_path))
    (hnd : (rows.map TrackedFile.relative_path).Nodup) :
    (newrows.map TrackedFile.relative_path).Nodup := by
  rcases h with h | ⟨h, hp⟩
  · rw [h]; exact hnd
  · rw [h]
    simp [List.nodup_append, hnd, hp]

theorem mem_of_paths_or {q : String} (rows newrows : List TrackedFile) (path : String)
    (h : newrows.map TrackedFile.relative_path = rows.map TrackedFile.relative_path ∨
      (newrows.map TrackedFile.relative_path =
        rows.map TrackedFile.relative_path ++ [path] ∧
        path ∉ rows.map TrackedFile.relative_path))
    (hq : q ∈ newrows.map TrackedFile.relative_path) :
    q ∈ rows.map TrackedFile.relative_path ∨ q = path := by
  rcases h with h | ⟨h, _⟩
  · rw [h] at hq; exact Or.inl hq
  · rw [h] at hq
    rcases List.mem_append.mp hq with hq | hq
    · exact Or.inl hq
    · right; simpa using hq

theorem rowPaths_markFold (now : Int) (cs : List DetectedChange)
    (rows : List TrackedFile) :
    (markFold now cs rows).map TrackedFile.relative_path =
      rows.map TrackedFile.relative_path := by
  induction cs generalizing rows with
  | nil => rfl
  | cons c rest ih =>
    rw [markFold_cons, ih]
    exact rowPaths_updateRow (markUpd now) (fun f => rfl) c.relative_path rows

theorem nodup_uploadLocalFold (env : FsEnv) (pid now : Int)
    (cs : List DetectedChange) (rows : List TrackedFile)
    (hnd : (rows.map TrackedFile.relative_path).Nodup) :
    ((uploadLocalFold env pid now cs rows).map TrackedFile.relative_path).Nodup := by
  induction cs generalizing rows with
  | nil => exact hnd
  | cons c rest ih =>
    rw [uploadLocalFold_cons]
    exact ih _ (nodup_of_paths_or rows _ c.relative_path
      (rowPaths_save_local rows pid c.relative_path _ _ none now) hnd)

theorem mem_rowPaths_uploadLocalFold {q : String} (env : FsEnv) (pid now : Int)
    (cs : List DetectedChange) (rows : List TrackedFile)
    (hq : q ∈ (uploadLocalFold env pid now cs rows).map TrackedFile.relative_path) :
    q ∈ rows.map TrackedFile.relative_path ∨ ∃ c ∈ cs, c.relative_path = q := by
  induction cs generalizing rows with
  | nil => exact Or.inl hq
  | cons c rest ih =>
    rw [uploadLocalFold_cons] at hq
    rcases ih _ hq with h | ⟨c', hc', hcq⟩
    · rcases mem_of_paths_or rows _ c.relative_path
        (rowPaths_save_local rows pid c.relative_path _ _ none now) h with h | h
      · exact Or.inl h
      · exact Or.inr ⟨c, List.mem_cons_self c rest, h.symm⟩
    · exact Or.inr ⟨c', List.mem_cons_of_mem _ hc', hcq⟩

theorem nodup_downloadRemoteFold (env : FsEnv) (pid now : Int)
    (cs : List DetectedChange) (rows : List TrackedFile)
    (hnd : (rows.map TrackedFile.relative_path).Nodup) :
    ((downloadRemoteFold env pid now cs rows).map TrackedFile.relative_path).Nodup := by
  induction cs generalizing rows with
  | nil => exact hnd
  | cons c rest ih =>
    rw [downloadRemoteFold_cons]
    by_cases hb : env.remoteExists c.relative_path = true
    · rw [if_pos hb]
      exact ih _ (nodup_of_paths_or rows _ c.relative_path
        (rowPaths_save_remote rows pid c.relative_path _ c.hash c.mtime none now) hnd)
    · rw [if_neg hb]
      exact ih _ hnd

theorem mem_rowPaths_downloadRemoteFold {q : String} (env : FsEnv) (pid now : Int)
    (cs : List DetectedChange) (rows : List TrackedFile)
    (hq : q ∈ (downloadRemoteFold env pid now cs rows).map TrackedFile.relative_path) :
    q ∈ rows.map TrackedFile.relative_path ∨ ∃ c ∈ cs, c.relative_path = q := by
  induction cs generalizing rows with
  | nil => exact Or.inl hq
  | cons c rest ih =>
    rw [downloadRemoteFold_cons] at hq
    by_cases hb : env.remoteExists c.relative_path = true
    · rw [if_pos hb] at hq
      rcases ih _ hq with h | ⟨c', hc', hcq⟩
      · rcases mem_of_paths_or rows _ c.relative_path
          (rowPaths_save_remote rows pid c.relative_path _ c.hash c.mtime none now)
          h with h | h
        · exact Or.inl h
        · exact Or.inr ⟨c, List.mem_cons_self c rest, h.symm⟩
      · exact Or.inr ⟨c', List.mem_cons_of_mem _ hc', hcq⟩
    · rw [if_neg hb] at hq
      rcases ih _ hq with h | ⟨c', hc', hcq⟩
      · exact Or.inl h
      · exact Or.inr ⟨c', List.mem_cons_of_mem _ hc', hcq⟩

-- ==================== Structure of the detect_changes map ====================

theorem insertFiltered_cons {β α : Type} (g : β → Option (String × α)) (b : β)
    (rest : List β) (init : List (String × α)) :
    insertFiltered g (b :: rest) init =
      insertFiltered g rest
        (match g b with
        | some e => insertKey init e.1 e.2
        | none => init) := rfl

theorem insertFiltered_eq_init_of_none {β α : Type} (g : β → Option (String × α))
    (l : List β) (init : List (String × α)) (h : ∀ b ∈ l, g b = none) :
    insertFiltered g l init = init := by
  induction l with
  | nil => rfl
  | cons b rest ih =>
    rw [insertFiltered_cons, h b (List.mem_cons_self b rest)]
    exact ih (fun b' hb' => h b' (List.mem_cons_of_mem _ hb'))

theorem mem_insertKey {κ α : Type} [DecidableEq κ] {e : κ × α}
    {l : List (κ × α)} {k : κ} {v : α} (h : e ∈ insertKey l k v) :
    e = (k, v) ∨ e ∈ l := by
  unfold insertKey at h
  by_cases hc : containsKey k l
  · rw [if_pos hc] at h
    rcases List.mem_map.mp h with ⟨e', he', hee⟩
    by_cases hk : e'.1 = k
    · left; rw [← hee, if_pos hk]
    · right; rw [← hee, if_neg hk]; exact he'
  · rw [if_neg hc] at h
    rcases List.mem_append.mp h with h | h
    · right; exact h
    · left; simpa using h

theorem insertFiltered_forall {β α : Type} (P : String × α → Prop)
    (g : β → Option (String × α)) (l : List β) (init : List (String × α))
    (hg : ∀ b ∈ l, ∀ e, g b = some e → P e)
    (hinit : ∀ e ∈ init, P e) :
    ∀ e ∈ insertFiltered g l init, P e := by
  induction l generalizing init with
  | nil => exact hinit
  | cons b rest ih =>
    intro e he
    rw [insertFiltered_cons] at he
    cases hgb : g b with
    | none =>
      rw [hgb] at he
      exact ih _ (fun b' hb' => hg b' (List.mem_cons_of_mem _ hb')) hinit e he
    | some e0 =>
      rw [hgb] at he
      refine ih _ (fun b' hb' => hg b' (List.mem_cons_of_mem _ hb')) ?_ e he
      intro e' he'
      rcases mem_insertKey he' with rfl | h
      · have := hg b (List.mem_cons_self b rest) e0 hgb
        simpa using this
      · exact hinit e' h

theorem key_not_mem_of_containsKey_false {κ α : Type} [DecidableEq κ] {k : κ}
    {l : List (κ × α)} (h : containsKey k l = false) : k ∉ l.map Prod.fst := by
  intro hmem
  rcases List.mem_map.mp hmem with ⟨e, he, hek⟩
  have : (k, e.2) ∈ l := by
    have : e = (k, e.2) := by
      obtain ⟨e1, e2⟩ := e
      simp at hek
      simp [hek]
    rw [← this]
    exact he
  rw [containsKey_of_mem this] at h
  cases h

theorem keys_map_overwrite {κ α : Type} [DecidableEq κ] (k : κ) (v : α)
    (l : List (κ × α)) :
    (l.map (fun e => if e.1 = k then (k, v) else e)).map Prod.fst =
      l.map Prod.fst := by
  induction l with
  | nil => rfl
  | cons e rest ih =>
    rw [List.map_cons, List.map_cons, List.map_cons, ih]
    by_cases hk : e.1 = k
    · rw [if_pos hk]
      simp [hk]
    · rw [if_neg hk]

theorem keys_insertKey_nodup {κ α : Type} [DecidableEq κ] {l : List (κ × α)}
    (k : κ) (v : α) (h : (l.map Prod.fst).Nodup) :
    ((insertKey l k v).map Prod.fst).Nodup := by
  unfold insertKey
  by_cases hc : containsKey k l
  · rw [if_pos hc, keys_map_overwrite]
    exact h
  · rw [if_neg hc]
    have hk := key_not_mem_of_containsKey_false
      (by simpa using (Bool.not_eq_true _).mp hc)
    rw [List.map_append]
    simp [List.nodup_append, h, hk]

theorem insertFiltered_nodupKeys {β α : Type} (g : β → Option (String × α))
    (l : List β) (init : List (String × α))
    (hinit : (init.map Prod.fst).Nodup) :
    ((insertFiltered g l init).map Prod.fst).Nodup := by
  induction l generalizing init with
  | nil => exact hinit
  | cons b rest ih =>
    rw [insertFiltered_cons]
    cases hgb : g b with
    | none => exact ih _ hinit
    | some e => exact ih _ (keys_insertKey_nodup e.1 e.2 hinit)

theorem detect_changes_nodupKeys (previous : List TrackedFile) (current : ScanMap) :
    ((detect_changes previous current).map Prod.fst).Nodup := by
  unfold detect_changes
  exact insertFiltered_nodupKeys _ _ _
    (insertFiltered_nodupKeys _ _ _ (by simp))

theorem detect_changes_entry_path (previous : List TrackedFile) (current : ScanMap)
    (hk : ∀ pc ∈ current, pc.2.relative_path = pc.1) :
    ∀ e ∈ detect_changes previous current, e.2.relative_path = e.1 := by
  unfold detect_changes
  apply insertFiltered_forall
  · intro f _ e he
    rcases deletedEntry_eq_some.mp he with ⟨_, _, rfl⟩
    rfl
  · apply insertFiltered_forall
    · intro pc hpc e he
      unfold classifiedEntry at he
      by_cases hct : classify_current previous pc.1 pc.2 = ChangeType.Unchanged
      · simp [hct] at he
      · simp [hct] at he
        rw [← he]
        exact hk pc hpc
    · intro e he
      simp at he

theorem lookupKey_of_mem_nodup {κ α : Type} [DecidableEq κ] {k : κ} {v : α}
    {l : List (κ × α)} (h : (k, v) ∈ l) (hnd : (l.map Prod.fst).Nodup) :
    lookupKey k l = some v := by
  induction l with
  | nil => simp at h
  | cons e rest ih =>
    rcases List.mem_cons.mp h with rfl | hr
    · simp [lookupKey]
    · have hek : e.1 ≠ k := by
        intro hk
        exact (List.nodup_cons.mp hnd).1
          (hk ▸ List.mem_map.mpr ⟨(k, v), hr, rfl⟩)
      simp only [lookupKey, if_neg hek]
      exact ih hr (List.nodup_cons.mp hnd).2

theorem firstFromEnd_mem {α : Type} {k : String} {v : α} {l : List (String × α)}
    (h : firstFromEnd k l = some v) : (k, v) ∈ l := by
  induction l with
  | nil => simp [firstFromEnd] at h
  | cons e rest ih =>
    rw [firstFromEnd_cons] at h
    cases hr : firstFromEnd k rest with
    | some w =>
      rw [hr] at h
      simp only [Option.or] at h
      cases h
      exact List.mem_cons_of_mem _ (ih hr)
    | none =>
      rw [hr] at h
      simp only [Option.or] at h
      by_cases hk : e.1 = k
      · rw [if_pos hk] at h
        injection h with h'
        have : e = (k, v) := by
          obtain ⟨e1, e2⟩ := e
          simp at hk h' ⊢
          exact ⟨hk, h'⟩
        rw [← this]
        exact List.mem_cons_self e rest
      · rw [if_neg hk] at h
        cases h

theorem containsKey_true_iff {κ α : Type} [DecidableEq κ] (k : κ)
    (l : List (κ × α)) : containsKey k l = true ↔ ∃ v, (k, v) ∈ l := by
  constructor
  · intro h
    unfold containsKey at h
    cases hk : lookupKey k l with
    | none => rw [hk] at h; cases h
    | some v => exact ⟨v, mem_of_lookupKey hk⟩
  · rintro ⟨v, hv⟩
    exact containsKey_of_mem hv

theorem classify_current_ne_deleted (previous : List TrackedFile) (p : String)
    (c : DetectedChange) : classify_current previous p c ≠ ChangeType.Deleted := by
  unfold classify_current
  cases hfp : findPrev previous p with
  | none => simp
  | some f =>
    by_cases hd : f.is_deleted
    · simp [hd]
    · by_cases hdiff : f.size ≠ c.size.getD 0 ∨ f.mtime_ms ≠ c.mtime
      · simp [hd, hdiff]
      · simp [hd, hdiff]

theorem classify_current_unchanged_inv {previous : List TrackedFile} {p : String}
    {c : DetectedChange}
    (h : classify_current previous p c = ChangeType.Unchanged) :
    ∃ f, findPrev previous p = some f ∧ f.is_deleted = false ∧
      f.size = c.size.getD 0 ∧ f.mtime_ms = c.mtime := by
  unfold classify_current at h
  cases hfp : findPrev previous p with
  | none => rw [hfp] at h; cases h
  | some f =>
    rw [hfp] at h
    dsimp only at h
    by_cases hd : f.is_deleted
    · rw [if_pos hd] at h; cases h
    · rw [if_neg hd] at h
      by_cases hdiff : f.size ≠ c.size.getD 0 ∨ f.mtime_ms ≠ c.mtime
      · rw [if_pos hdiff] at h; cases h
      · push_neg at hdiff
        exact ⟨f, rfl, by simpa using hd, hdiff.1, hdiff.2⟩

theorem lookup_detect_at_current (previous : List TrackedFile) (current : ScanMap)
    (hcnd : (current.map Prod.fst).Nodup) {p : String} {c : DetectedChange}
    (hpc : (p, c) ∈ current) :
    lookupKey p (detect_changes previous current) =
      (classifiedEntry previous (p, c)).map Prod.snd := by
  rw [lookupKey_detect_changes, deleted_part_none_of_mem_current previous current hpc,
    classified_part_at_current previous current hcnd hpc]
  cases (classifiedEntry previous (p, c)).map Prod.snd <;> rfl

-- ==================== Change values of one run ====================

theorem mem_changeValues_entry {previous : List TrackedFile} {current : ScanMap}
    (hk : ∀ pc ∈ current, pc.2.relative_path = pc.1) {v : DetectedChange}
    (hv : v ∈ changeValues previous current) :
    (v.relative_path, v) ∈ detect_changes previous current := by
  rcases List.mem_map.mp hv with ⟨e, he, rfl⟩
  have hpath := detect_changes_entry_path previous current hk e he
  rw [hpath]
  simpa using he

theorem lookup_changeValue {previous : List TrackedFile} {current : ScanMap}
    (hk : ∀ pc ∈ current, pc.2.relative_path = pc.1) {v : DetectedChange}
    (hv : v ∈ changeValues previous current) :
    lookupKey v.relative_path (detect_changes previous current) = some v :=
  lookupKey_of_mem_nodup (mem_changeValues_entry hk hv)
    (detect_changes_nodupKeys previous current)

theorem not_mem_changeValues_paths {previous : List TrackedFile} {current : ScanMap}
    (hk : ∀ pc ∈ current, pc.2.relative_path = pc.1) {p : String}
    (hnone : lookupKey p (detect_changes previous current) = none) :
    ∀ v ∈ changeValues previous current, v.relative_path ≠ p := by
  intro v hv hvp
  have hlook := lookup_changeValue hk hv
  rw [hvp, hnone] at hlook
  cases hlook

theorem changeValue_deleted_not_in_current {previous : List TrackedFile}
    {current : ScanMap} (hk : ∀ pc ∈ current, pc.2.relative_path = pc.1)
    (hcnd : (current.map Prod.fst).Nodup) {v : DetectedChange}
    (hv : v ∈ changeValues previous current)
    (hdel : v.change_type = ChangeType.Deleted) :
    containsKey v.relative_path current = false := by
  cases hcc : containsKey v.relative_path current with
  | false => rfl
  | true =>
    exfalso
    rcases (containsKey_true_iff _ _).mp hcc with ⟨c', hc'⟩
    have hlook := lookup_changeValue hk hv
    rw [lookup_detect_at_current previous current hcnd hc'] at hlook
    by_cases hct : classify_current previous v.relative_path c' = ChangeType.Unchanged
    · rw [show classifiedEntry previous (v.relative_path, c') = none from by
        unfold classifiedEntry
        dsimp only
        rw [if_pos hct]] at hlook
      cases hlook
    · rw [show classifiedEntry previous (v.relative_path, c') =
          some (v.relative_path, { c' with
            change_type := classify_current previous v.relative_path c' }) from by
        unfold classifiedEntry
        dsimp only
        rw [if_neg hct]] at hlook
      simp only [Option.map] at hlook
      injection hlook with hlook
      apply classify_current_ne_deleted previous v.relative_path c'
      rw [← hlook] at hdel
      exact hdel

theorem changeValue_live_in_current {previous : List TrackedFile}
    {current : ScanMap} (hk : ∀ pc ∈ current, pc.2.relative_path = pc.1)
    {v : DetectedChange} (hv : v ∈ changeValues previous current)
    (hne : v.change_type ≠ ChangeType.Deleted) :
    containsKey v.relative_path current = true := by
  cases hcc : containsKey v.relative_path current with
  | true => rfl
  | false =>
    exfalso
    have hlook := lookup_changeValue hk hv
    rw [lookupKey_detect_changes,
      classified_part_none_of_not_in_current previous current hcc] at hlook
    have hff : firstFromEnd v.relative_path
        (previous.filterMap (deletedEntry current)) = some v := by
      cases hf : firstFromEnd v.relative_path
          (previous.filterMap (deletedEntry current)) with
      | none => rw [hf] at hlook; cases hlook
      | some w =>
        rw [hf] at hlook
        simp only [Option.or] at hlook
        cases hlook
        rfl
    rcases List.mem_filterMap.mp (firstFromEnd_mem hff) with ⟨f, _, hfe⟩
    rcases deletedEntry_eq_some.mp hfe with ⟨_, _, hef⟩
    have : v = deletedRecord f := by
      injection hef with h1 h2
    exact hne (by rw [this]; rfl)

-- ==================== Small facts about queue membership ====================

theorem classifiedEntry_eq_none {previous : List TrackedFile} {p : String}
    {c : DetectedChange}
    (hct : classify_current previous p c = ChangeType.Unchanged) :
    classifiedEntry previous (p, c) = none := by
  unfold classifiedEntry
  dsimp only
  rw [if_pos hct]

theorem classifiedEntry_eq_some' {previous : List TrackedFile} {p : String}
    {c : DetectedChange}
    (hct : classify_current previous p c ≠ ChangeType.Unchanged) :
    classifiedEntry previous (p, c) =
      some (p, { c with change_type := classify_current previous p c }) := by
  unfold classifiedEntry
  dsimp only
  rw [if_neg hct]

theorem bootstrapChanges_paths (cur : ScanMap) :
    (bootstrapChanges cur).map DetectedChange.relative_path = cur.map Prod.fst := by
  unfold bootstrapChanges
  rw [List.map_map]
  rfl

theorem containsKey_of_key_mem {κ α : Type} [DecidableEq κ] {k : κ}
    {l : List (κ × α)} (h : k ∈ l.map Prod.fst) : containsKey k l = true := by
  rcases List.mem_map.mp h with ⟨e, he, hek⟩
  refine containsKey_of_mem (v := e.2) ?_
  have : e = (k, e.2) := by
    obtain ⟨e1, e2⟩ := e
    simp at hek
    simp [hek]
  rw [← this]
  exact he

theorem changeValues_paths_eq (previous : List TrackedFile) (current : ScanMap)
    (hk : ∀ pc ∈ current, pc.2.relative_path = pc.1) :
    (changeValues previous current).map DetectedChange.relative_path =
      (detect_changes previous current).map Prod.fst := by
  unfold changeValues
  rw [List.map_map]
  apply List.map_congr_left
  intro e he
  exact detect_changes_entry_path previous current hk e he

theorem changeValues_paths_nodup (previous : List TrackedFile) (current : ScanMap)
    (hk : ∀ pc ∈ current, pc.2.relative_path = pc.1) :
    ((changeValues previous current).map DetectedChange.relative_path).Nodup := by
  rw [changeValues_paths_eq previous current hk]
  exact detect_changes_nodupKeys previous current

theorem filter_paths_nodup {cs : List DetectedChange}
    (pred : DetectedChange → Bool)
    (hnd : (cs.map DetectedChange.relative_path).Nodup) :
    ((cs.filter pred).map DetectedChange.relative_path).Nodup :=
  hnd.sublist (List.Sublist.map _ (List.filter_sublist cs))

theorem transfer_ne_deleted {v : DetectedChange}
    (h : isTransferChange v = true) : v.change_type ≠ ChangeType.Deleted := by
  intro hd
  unfold isTransferChange at h
  rw [hd] at h
  simp at h

theorem deleted_of_isDeletedChange {v : DetectedChange}
    (h : isDeletedChange v = true) : v.change_type = ChangeType.Deleted := by
  unfold isDeletedChange at h
  exact of_decide_eq_true h

-- ==================== Second-run emptiness core ====================

theorem detect_changes_eq_nil (rows : List TrackedFile) (cur : ScanMap)
    (H1 : ∀ p c, (p, c) ∈ cur → ∃ f, findPrev rows p = some f ∧
      f.is_deleted = false ∧ f.size = c.size.getD 0 ∧ f.mtime_ms = c.mtime)
    (H2 : ∀ f ∈ rows, f.is_deleted = false →
      containsKey f.relative_path cur = true) :
    detect_changes rows cur = [] := by
  unfold detect_changes
  have hinner : insertFiltered (classifiedEntry rows) cur [] = [] := by
    apply insertFiltered_eq_init_of_none
    intro pc hpc
    obtain ⟨f, hf, hd, hs, hm⟩ := H1 pc.1 pc.2 (by simpa using hpc)
    have hcl : classify_current rows pc.1 pc.2 = ChangeType.Unchanged := by
      unfold classify_current
      rw [hf]
      dsimp only
      rw [if_neg (by simp [hd]), if_neg (by simp [hs, hm])]
    unfold classifiedEntry
    dsimp only
    rw [if_pos hcl]
  rw [hinner]
  apply insertFiltered_eq_init_of_none
  intro f hf
  unfold deletedEntry
  rw [if_neg]
  rintro ⟨h1, h2⟩
  rw [H2 f hf h1] at h2
  cases h2

-- ==================== Post-state of the upload side ====================

theorem upload_bootstrap_state (env : FsEnv) (pid now : Int) (cur : ScanMap)
    (hcnd : (cur.map Prod.fst).Nodup)
    (hread : ∀ pc ∈ cur, env.readSize pc.1 = pc.2.size.getD 0)
    (hmt : ∀ pc ∈ cur, pc.2.mtime.isSome = true) :
    (∀ p c, (p, c) ∈ cur → ∃ f,
      findPrev (uploadLocalFold env pid now (bootstrapChanges cur) []) p = some f ∧
      f.is_deleted = false ∧ f.size = c.size.getD 0 ∧ f.mtime_ms = c.mtime) ∧
    (∀ f ∈ uploadLocalFold env pid now (bootstrapChanges cur) [],
      f.is_deleted = false → containsKey f.relative_path cur = true) := by
  have hbnd : ((bootstrapChanges cur).map DetectedChange.relative_path).Nodup := by
    rw [bootstrapChanges_paths]
    exact hcnd
  constructor
  · intro p c hpc
    have hb : ({
        relative_path := p, change_type := ChangeType.New, size := c.size,
        mtime := c.mtime, hash := c.hash } : DetectedChange) ∈ bootstrapChanges cur :=
      List.mem_map.mpr ⟨(p, c), hpc, rfl⟩
    obtain ⟨f, h1, h2, h3, h4, h5⟩ :=
      findPrev_uploadLocalFold_mem env pid now (bootstrapChanges cur) [] hbnd hb
    refine ⟨f, h1, h5, ?_, ?_⟩
    · rw [h3]
      exact hread (p, c) hpc
    · rcases Option.isSome_iff_exists.mp (hmt (p, c) hpc) with ⟨m, hm⟩
      rw [h4]
      show some ((c.mtime).getD _) = c.mtime
      rw [hm]
      rfl
  · intro f hf _
    apply containsKey_of_key_mem
    have hp : f.relative_path ∈
        (uploadLocalFold env pid now (bootstrapChanges cur) []).map
          TrackedFile.relative_path :=
      List.mem_map.mpr ⟨f, hf, rfl⟩
    rcases mem_rowPaths_uploadLocalFold env pid now _ _ hp with h | ⟨b, hb, hbq⟩
    · simp at h
    · rw [← hbq]
      rw [← bootstrapChanges_paths cur]
      exact List.mem_map.mpr ⟨b, hb, rfl⟩

theorem upload_incremental_state (env : FsEnv) (pid now : Int)
    (lp : List TrackedFile) (cur : ScanMap)
    (hk : ∀ pc ∈ cur, pc.2.relative_path = pc.1)
    (hcnd : (cur.map Prod.fst).Nodup)
    (hpnd : (lp.map TrackedFile.relative_path).Nodup)
    (hread : ∀ pc ∈ cur, env.readSize pc.1 = pc.2.size.getD 0)
    (hmt : ∀ pc ∈ cur, pc.2.mtime.isSome = true) :
    (∀ p c, (p, c) ∈ cur → ∃ f,
      findPrev (markFold now ((changeValues lp cur).filter isDeletedChange)
        (uploadLocalFold env pid now
          ((changeValues lp cur).filter isTransferChange) lp)) p = some f ∧
      f.is_deleted = false ∧ f.size = c.size.getD 0 ∧ f.mtime_ms = c.mtime) ∧
    (∀ f ∈ markFold now ((changeValues lp cur).filter isDeletedChange)
        (uploadLocalFold env pid now
          ((changeValues lp cur).filter isTransferChange) lp),
      f.is_deleted = false → containsKey f.relative_path cur = true) := by
  have hcsnd := changeValues_paths_nodup lp cur hk
  have hund := filter_paths_nodup isTransferChange hcsnd
  have hdnd := filter_paths_nodup isDeletedChange hcsnd
  have hDl : ∀ p (c : DetectedChange), (p, c) ∈ cur →
      ∀ v ∈ (changeValues lp cur).filter isDeletedChange, v.relative_path ≠ p := by
    intro p c hpc v hv hvp
    have hvd := changeValue_deleted_not_in_current hk hcnd
      (List.mem_of_mem_filter hv)
      (deleted_of_isDeletedChange (List.of_mem_filter hv))
    rw [hvp, containsKey_of_mem hpc] at hvd
    cases hvd
  constructor
  · intro p c hpc
    cases hct : classify_current lp p c with
    | Deleted => exact absurd hct (classify_current_ne_deleted lp p c)
    | Unchanged =>
      have hnone : lookupKey p (detect_changes lp cur) = none := by
        rw [lookup_detect_at_current lp cur hcnd hpc, classifiedEntry_eq_none hct]
        rfl
      have hU : ∀ v ∈ (changeValues lp cur).filter isTransferChange,
          v.relative_path ≠ p := fun v hv =>
        not_mem_changeValues_paths hk hnone v (List.mem_of_mem_filter hv)
      rw [findPrev_markFold_not_mem now _ _ (hDl p c hpc),
        findPrev_uploadLocalFold_not_mem env pid now _ _ hU]
      obtain ⟨f, h1, h2, h3, h4⟩ := classify_current_unchanged_inv hct
      exact ⟨f, h1, h2, h3, h4⟩
    | New =>
      have hct' : classify_current lp p c ≠ ChangeType.Unchanged := by
        rw [hct]; intro h; cases h
      have hlook : lookupKey p (detect_changes lp cur) =
          some { c with change_type := classify_current lp p c } := by
        rw [lookup_detect_at_current lp cur hcnd hpc, classifiedEntry_eq_some' hct']
        rfl
      have hventry := mem_of_lookupKey hlook
      have hvcs : ({ c with change_type := classify_current lp p c } :
          DetectedChange) ∈ changeValues lp cur :=
        List.mem_map.mpr ⟨_, hventry, rfl⟩
      have hvU : ({ c with change_type := classify_current lp p c } :
          DetectedChange) ∈ (changeValues lp cur).filter isTransferChange := by
        apply List.mem_filter.mpr
        refine ⟨hvcs, ?_⟩
        unfold isTransferChange
        rw [hct]
        rfl
      obtain ⟨f, h1, h2, h3, h4, h5⟩ :=
        findPrev_uploadLocalFold_mem env pid now _ lp hund hvU
      have hvpath : ({ c with change_type := classify_current lp p c } :
          DetectedChange).relative_path = p := hk (p, c) hpc
      rw [hvpath] at h1 h3 h4
      rw [findPrev_markFold_not_mem now _ _ (hDl p c hpc)]
      refine ⟨f, h1, h5, ?_, ?_⟩
      · rw [h3]
        exact hread (p, c) hpc
      · rcases Option.isSome_iff_exists.mp (hmt (p, c) hpc) with ⟨m, hm⟩
        rw [h4]
        show some ((c.mtime).getD _) = c.mtime
        rw [hm]
        rfl
    | Modified =>
      have hct' : classify_current lp p c ≠ ChangeType.Unchanged := by
        rw [hct]; intro h; cases h
      have hlook : lookupKey p (detect_changes lp cur) =
          some { c with change_type := classify_current lp p c } := by
        rw [lookup_detect_at_current lp cur hcnd hpc, classifiedEntry_eq_some' hct']
        rfl
      have hventry := mem_of_lookupKey hlook
      have hvcs : ({ c with change_type := classify_current lp p c } :
          DetectedChange) ∈ changeValues lp cur :=
        List.mem_map.mpr ⟨_, hventry, rfl⟩
      have hvU : ({ c with change_type := classify_current lp p c } :
          DetectedChange) ∈ (changeValues lp cur).filter isTransferChange := by
        apply List.mem_filter.mpr
        refine ⟨hvcs, ?_⟩
        unfold isTransferChange
        rw [hct]
        rfl
      obtain ⟨f, h1, h2, h3, h4, h5⟩ :=
        findPrev_uploadLocalFold_mem env pid now _ lp hund hvU
      have hvpath : ({ c with change_type := classify_current lp p c } :
          DetectedChange).relative_path = p := hk (p, c) hpc
      rw [hvpath] at h1 h3 h4
      rw [findPrev_markFold_not_mem now _ _ (hDl p c hpc)]
      refine ⟨f, h1, h5, ?_, ?_⟩
      · rw [h3]
        exact hread (p, c) hpc
      · rcases Option.isSome_iff_exists.mp (hmt (p, c) hpc) with ⟨m, hm⟩
        rw [h4]
        show some ((c.mtime).getD _) = c.mtime
        rw [hm]
        rfl
  · intro f' hf' hfd
    have hl1nd : ((markFold now ((changeValues lp cur).filter isDeletedChange)
        (uploadLocalFold env pid now
          ((changeValues lp cur).filter isTransferChange) lp)).map
        TrackedFile.relative_path).Nodup := by
      rw [rowPaths_markFold]
      exact nodup_uploadLocalFold env pid now _ lp hpnd
    have hfp := findPrev_of_mem _ hl1nd hf'
    by_cases hinD : ∃ v ∈ (changeValues lp cur).filter isDeletedChange,
      v.relative_path = f'.relative_path
    · exfalso
      rw [findPrev_markFold_mem now _ _ hdnd hinD] at hfp
      cases ho : findPrev (uploadLocalFold env pid now
          ((changeValues lp cur).filter isTransferChange) lp) f'.relative_path with
      | none => rw [ho] at hfp; cases hfp
      | some g =>
        rw [ho] at hfp
        simp only [Option.map] at hfp
        injection hfp with hfp
        rw [← hfp] at hfd
        cases hfd
    · push_neg at hinD
      rw [findPrev_markFold_not_mem now _ _ hinD] at hfp
      by_cases hinU : ∃ v ∈ (changeValues lp cur).filter isTransferChange,
        v.relative_path = f'.relative_path
      · rcases hinU with ⟨v, hv, hvp⟩
        rw [← hvp]
        exact changeValue_live_in_current hk (List.mem_of_mem_filter hv)
          (transfer_ne_deleted (List.of_mem_filter hv))
      · push_neg at hinU
        rw [findPrev_uploadLocalFold_not_mem env pid now _ _ hinU] at hfp
        have hflp := (mem_of_findPrev hfp).1
        cases hcc : containsKey f'.relative_path cur with
        | true => rfl
        | false =>
          exfalso
          have hlook : lookupKey f'.relative_path (detect_changes lp cur) =
              some (deletedRecord f') := by
            rw [lookupKey_detect_changes,
              deleted_part_at_row lp cur hpnd hflp,
              classified_part_none_of_not_in_current lp cur hcc,
              deletedEntry_eq_some.mpr ⟨hfd, hcc, rfl⟩]
            rfl
          have hvcs : deletedRecord f' ∈ changeValues lp cur :=
            List.mem_map.mpr ⟨_, mem_of_lookupKey hlook, rfl⟩
          have hvD : deletedRecord f' ∈
              (changeValues lp cur).filter isDeletedChange := by
            apply List.mem_filter.mpr
            exact ⟨hvcs, rfl⟩
          exact absurd rfl (hinD (deletedRecord f') hvD)

-- ==================== Post-state of the download side ====================

theorem download_bootstrap_state (env : FsEnv) (pid now : Int) (rcur : ScanMap)
    (hcnd : (rcur.map Prod.fst).Nodup)
    (hbody : ∀ pc ∈ rcur, env.bodySize pc.1 = pc.2.size.getD 0)
    (hexist : ∀ pc ∈ rcur, env.remoteExists pc.1 = true) :
    (∀ p c, (p, c) ∈ rcur → ∃ f,
      findPrev (downloadRemoteFold env pid now (bootstrapChanges rcur) []) p =
        some f ∧
      f.is_deleted = false ∧ f.size = c.size.getD 0 ∧ f.mtime_ms = c.mtime) ∧
    (∀ f ∈ downloadRemoteFold env pid now (bootstrapChanges rcur) [],
      f.is_deleted = false → containsKey f.relative_path rcur = true) := by
  have hbnd : ((bootstrapChanges rcur).map DetectedChange.relative_path).Nodup := by
    rw [bootstrapChanges_paths]
    exact hcnd
  constructor
  · intro p c hpc
    have hb : ({
        relative_path := p, change_type := ChangeType.New, size := c.size,
        mtime := c.mtime, hash := c.hash } : DetectedChange) ∈ bootstrapChanges rcur :=
      List.mem_map.mpr ⟨(p, c), hpc, rfl⟩
    obtain ⟨f, h1, h2, h3, h4, h5, h6⟩ :=
      findPrev_downloadRemoteFold_mem env pid now (bootstrapChanges rcur) [] hbnd hb
        (hexist (p, c) hpc)
    refine ⟨f, h1, h6, ?_, h4⟩
    rw [h3]
    exact hbody (p, c) hpc
  · intro f hf _
    apply containsKey_of_key_mem
    have hp : f.relative_path ∈
        (downloadRemoteFold env pid now (bootstrapChanges rcur) []).map
          TrackedFile.relative_path :=
      List.mem_map.mpr ⟨f, hf, rfl⟩
    rcases mem_rowPaths_downloadRemoteFold env pid now _ _ hp with h | ⟨b, hb, hbq⟩
    · simp at h
    · rw [← hbq]
      rw [← bootstrapChanges_paths rcur]
      exact List.mem_map.mpr ⟨b, hb, rfl⟩

theorem download_incremental_state (env : FsEnv) (pid now : Int)
    (rp : List TrackedFile) (rcur : ScanMap)
    (hk : ∀ pc ∈ rcur, pc.2.relative_path = pc.1)
    (hcnd : (rcur.map Prod.fst).Nodup)
    (hpnd : (rp.map TrackedFile.relative_path).Nodup)
    (hbody : ∀ pc ∈ rcur, env.bodySize pc.1 = pc.2.size.getD 0)
    (hexist : ∀ pc ∈ rcur, env.remoteExists pc.1 = true) :
    (∀ p c, (p, c) ∈ rcur → ∃ f,
      findPrev (markFold now ((changeValues rp rcur).filter isDeletedChange)
        (downloadRemoteFold env pid now
          ((changeValues rp rcur).filter isTransferChange) rp)) p = some f ∧
      f.is_deleted = false ∧ f.size = c.size.getD 0 ∧ f.mtime_ms = c.mtime) ∧
    (∀ f ∈ markFold now ((changeValues rp rcur).filter isDeletedChange)
        (downloadRemoteFold env pid now
          ((changeValues rp rcur).filter isTransferChange) rp),
      f.is_deleted = false → containsKey f.relative_path rcur = true) := by
  have hcsnd := changeValues_paths_nodup rp rcur hk
  have hund := filter_paths_nodup isTransferChange hcsnd
  have hdnd := filter_paths_nodup isDeletedChange hcsnd
  have hDl : ∀ p (c : DetectedChange), (p, c) ∈ rcur →
      ∀ v ∈ (changeValues rp rcur).filter isDeletedChange,
        v.relative_path ≠ p := by
    intro p c hpc v hv hvp
    have hvd := changeValue_deleted_not_in_current hk hcnd
      (List.mem_of_mem_filter hv)
      (deleted_of_isDeletedChange (List.of_mem_filter hv))
    rw [hvp, containsKey_of_mem hpc] at hvd
    cases hvd
  constructor
  · intro p c hpc
    cases hct : classify_current rp p c with
    | Deleted => exact absurd hct (classify_current_ne_deleted rp p c)
    | Unchanged =>
      have hnone : lookupKey p (detect_changes rp rcur) = none := by
        rw [lookup_detect_at_current rp rcur hcnd hpc, classifiedEntry_eq_none hct]
        rfl
      have hU : ∀ v ∈ (changeValues rp rcur).filter isTransferChange,
          v.relative_path ≠ p := fun v hv =>
        not_mem_changeValues_paths hk hnone v (List.mem_of_mem_filter hv)
      rw [findPrev_markFold_not_mem now _ _ (hDl p c hpc),
        findPrev_downloadRemoteFold_not_mem env pid now _ _ hU]
      obtain ⟨f, h1, h2, h3, h4⟩ := classify_current_unchanged_inv hct
      exact ⟨f, h1, h2, h3, h4⟩
    | New =>
      have hct' : classify_current rp p c ≠ ChangeType.Unchanged := by
        rw [hct]; intro h; cases h
      have hlook : lookupKey p (detect_changes rp rcur) =
          some { c with change_type := classify_current rp p c } := by
        rw [lookup_detect_at_current rp rcur hcnd hpc, classifiedEntry_eq_some' hct']
        rfl
      have hventry := mem_of_lookupKey hlook
      have hvcs : ({ c with change_type := classify_current rp p c } :
          DetectedChange) ∈ changeValues rp rcur :=
        List.mem_map.mpr ⟨_, hventry, rfl⟩
      have hvU : ({ c with change_type := classify_current rp p c } :
          DetectedChange) ∈ (changeValues rp rcur).filter isTransferChange := by
        apply List.mem_filter.mpr
        refine ⟨hvcs, ?_⟩
        unfold isTransferChange
        rw [hct]
        rfl
      have hvpath : ({ c with change_type := classify_current rp p c } :
          DetectedChange).relative_path = p := hk (p, c) hpc
      obtain ⟨f, h1, h2, h3, h4, h5, h6⟩ :=
        findPrev_downloadRemoteFold_mem env pid now _ rp hund hvU
          (by rw [show ({ c with change_type := classify_current rp p c } :
              DetectedChange).relative_path = p from hvpath]
              exact hexist (p, c) hpc)
      rw [hvpath] at h1 h3 h4
      rw [findPrev_markFold_not_mem now _ _ (hDl p c hpc)]
      refine ⟨f, h1, h6, ?_, h4⟩
      rw [h3]
      exact hbody (p, c) hpc
    | Modified =>
      have hct' : classify_current rp p c ≠ ChangeType.Unchanged := by
        rw [hct]; intro h; cases h
      have hlook : lookupKey p (detect_changes rp rcur) =
          some { c with change_type := classify_current rp p c } := by
        rw [lookup_detect_at_current rp rcur hcnd hpc, classifiedEntry_eq_some' hct']
        rfl
      have hventry := mem_of_lookupKey hlook
      have hvcs : ({ c with change_type := classify_current rp p c } :
          DetectedChange) ∈ changeValues rp rcur :=
        List.mem_map.mpr ⟨_, hventry, rfl⟩
      have hvU : ({ c with change_type := classify_current rp p c } :
          DetectedChange) ∈ (changeValues rp rcur).filter isTransferChange := by
        apply List.mem_filter.mpr
        refine ⟨hvcs, ?_⟩
        unfold isTransferChange
        rw [hct]
        rfl
      have hvpath : ({ c with change_type := classify_current rp p c } :
          DetectedChange).relative_path = p := hk (p, c) hpc
      obtain ⟨f, h1, h2, h3, h4, h5, h6⟩ :=
        findPrev_downloadRemoteFold_mem env pid now _ rp hund hvU
          (by rw [show ({ c with change_type := classify_current rp p c } :
              DetectedChange).relative_path = p from hvpath]
              exact hexist (p, c) hpc)
      rw [hvpath] at h1 h3 h4
      rw [findPrev_markFold_not_mem now _ _ (hDl p c hpc)]
      refine ⟨f, h1, h6, ?_, h4⟩
      rw [h3]
      exact hbody (p, c) hpc
  · intro f' hf' hfd
    have hl1nd : ((markFold now ((changeValues rp rcur).filter isDeletedChange)
        (downloadRemoteFold env pid now
          ((changeValues rp rcur).filter isTransferChange) rp)).map
        TrackedFile.relative_path).Nodup := by
      rw [rowPaths_markFold]
      exact nodup_downloadRemoteFold env pid now _ rp hpnd
    have hfp := findPrev_of_mem _ hl1nd hf'
    by_cases hinD : ∃ v ∈ (changeValues rp rcur).filter isDeletedChange,
      v.relative_path = f'.relative_path
    · exfalso
      rw [findPrev_markFold_mem now _ _ hdnd hinD] at hfp
      cases ho : findPrev (downloadRemoteFold env pid now
          ((changeValues rp rcur).filter isTransferChange) rp)
          f'.relative_path with
      | none => rw [ho] at hfp; cases hfp
      | some g =>
        rw [ho] at hfp
        simp only [Option.map] at hfp
        injection hfp with hfp
        rw [← hfp] at hfd
        cases hfd
    · push_neg at hinD
      rw [findPrev_markFold_not_mem now _ _ hinD] at hfp
      by_cases hinU : ∃ v ∈ (changeValues rp rcur).filter isTransferChange,
        v.relative_path = f'.relative_path
      · rcases hinU with ⟨v, hv, hvp⟩
        rw [← hvp]
        exact changeValue_live_in_current hk (List.mem_of_mem_filter hv)
          (transfer_ne_deleted (List.of_mem_filter hv))
      · push_neg at hinU
        rw [findPrev_downloadRemoteFold_not_mem env pid now _ _ hinU] at hfp
        have hflp := (mem_of_findPrev hfp).1
        cases hcc : containsKey f'.relative_path rcur with
        | true => rfl
        | false =>
          exfalso
          have hlook : lookupKey f'.relative_path (detect_changes rp rcur) =
              some (deletedRecord f') := by
            rw [lookupKey_detect_changes,
              deleted_part_at_row rp rcur hpnd hflp,
              classified_part_none_of_not_in_current rp rcur hcc,
              deletedEntry_eq_some.mpr ⟨hfd, hcc, rfl⟩]
            rfl
          have hvcs : deletedRecord f' ∈ changeValues rp rcur :=
            List.mem_map.mpr ⟨_, mem_of_lookupKey hlook, rfl⟩
          have hvD : deletedRecord f' ∈
              (changeValues rp rcur).filter isDeletedChange := by
            apply List.mem_filter.mpr
            exact ⟨hvcs, rfl⟩
          exact absurd rfl (hinD (deletedRecord f') hvD)

-- ==================== Empty second-run plans ====================

theorem plan_sync_empty_upload (pair : SyncPair)
    (hdir : pair.sync_direction = SyncDirection.UploadOnly)
    (l1 r1 : List TrackedFile) (cur rcur : ScanMap)
    (hnil : detect_changes l1 cur = [])
    (hcur : l1 = [] → cur = []) :
    plan_sync pair false l1 r1 cur rcur =
      { to_upload := [], to_download := [], to_delete_local := [],
        to_delete_remote := [], skipped_local_deletions := [],
        skipped_remote_deletions := [] } ∧
    preview_sync pair l1 r1 cur rcur =
      { to_upload := [], to_download := [], to_delete_local := [],
        to_delete_remote := [] } := by
  have hcv : changeValues l1 cur = [] := by
    unfold changeValues
    rw [hnil]
    rfl
  constructor
  · unfold plan_sync
    rw [hdir]
    dsimp only
    by_cases hl1 : l1.isEmpty = true
    · rw [if_pos (by simp [hl1])]
      rw [hcur (by simpa using hl1)]
      rfl
    · rw [if_neg (by simp [hl1])]
      rw [hcv]
      simp
  · unfold preview_sync
    rw [hdir]
    dsimp only
    by_cases hl1 : l1.isEmpty = true
    · rw [if_pos hl1]
      rw [hcur (by simpa using hl1)]
      rfl
    · rw [if_neg hl1]
      rw [hcv]
      simp

theorem plan_sync_empty_download (pair : SyncPair)
    (hdir : pair.sync_direction = SyncDirection.DownloadOnly)
    (l1 r1 : List TrackedFile) (cur rcur : ScanMap)
    (hnil : detect_changes r1 rcur = [])
    (hcur : r1 = [] → rcur = []) :
    plan_sync pair false l1 r1 cur rcur =
      { to_upload := [], to_download := [], to_delete_local := [],
        to_delete_remote := [], skipped_local_deletions := [],
        skipped_remote_deletions := [] } ∧
    preview_sync pair l1 r1 cur rcur =
      { to_upload := [], to_download := [], to_delete_local := [],
        to_delete_remote := [] } := by
  have hcv : changeValues r1 rcur = [] := by
    unfold changeValues
    rw [hnil]
    rfl
  constructor
  · unfold plan_sync
    rw [hdir]
    dsimp only
    by_cases hr1 : r1.isEmpty = true
    · rw [if_pos (by simp [hr1])]
      rw [hcur (by simpa using hr1)]
      rfl
    · rw [if_neg (by simp [hr1])]
      rw [hcv]
      simp
  · unfold preview_sync
    rw [hdir]
    dsimp only
    by_cases hr1 : r1.isEmpty = true
    · rw [if_pos hr1]
      rw [hcur (by simpa using hr1)]
      rfl
    · rw [if_neg hr1]
      rw [hcv]
      simp

-- ==================== Final tracked state of one run ====================

theorem run_local_state_upload_boot (env : FsEnv) (now : Int) (pair : SyncPair)
    (is_resync : Bool) (lp rp : List TrackedFile) (cur rcur : ScanMap)
    (hdir : pair.sync_direction = SyncDirection.UploadOnly)
    (hboot : (is_resync || lp.isEmpty) = true) (hlp : lp = []) :
    (run_sync env now pair is_resync lp rp cur rcur).2.1 =
      uploadLocalFold env pair.id now (bootstrapChanges cur) [] := by
  have hplan : plan_sync pair is_resync lp rp cur rcur =
      { to_upload := bootstrapChanges cur, to_download := [],
        to_delete_local := [], to_delete_remote := [],
        skipped_local_deletions := [], skipped_remote_deletions := [] } := by
    unfold plan_sync
    rw [hdir]
    dsimp only
    rw [if_pos hboot]
  unfold run_sync
  dsimp only
  rw [hplan, execute_plan_eq, hlp]
  rfl

theorem run_local_state_upload_incr (env : FsEnv) (now : Int) (pair : SyncPair)
    (is_resync : Bool) (lp rp : List TrackedFile) (cur rcur : ScanMap)
    (hdir : pair.sync_direction = SyncDirection.UploadOnly)
    (hboot : (is_resync || lp.isEmpty) = false) :
    (run_sync env now pair is_resync lp rp cur rcur).2.1 =
      markFold now ((changeValues lp cur).filter isDeletedChange)
        (uploadLocalFold env pair.id now
          ((changeValues lp cur).filter isTransferChange) lp) := by
  by_cases hprop : pair.delete_propagation = true
  · have hplan : plan_sync pair is_resync lp rp cur rcur =
        { to_upload := (changeValues lp cur).filter isTransferChange,
          to_download := [], to_delete_local := [],
          to_delete_remote := (changeValues lp cur).filter isDeletedChange,
          skipped_local_deletions := [], skipped_remote_deletions := [] } := by
      unfold plan_sync
      rw [hdir]
      dsimp only
      rw [if_neg (by simp [hboot]), if_pos hprop, if_pos hprop]
    unfold run_sync
    dsimp only
    rw [hplan, execute_plan_eq]
    rfl
  · have hplan : plan_sync pair is_resync lp rp cur rcur =
        { to_upload := (changeValues lp cur).filter isTransferChange,
          to_download := [], to_delete_local := [], to_delete_remote := [],
          skipped_local_deletions := (changeValues lp cur).filter isDeletedChange,
          skipped_remote_deletions := [] } := by
      unfold plan_sync
      rw [hdir]
      dsimp only
      rw [if_neg (by simp [hboot]), if_neg hprop, if_neg hprop]
    unfold run_sync
    dsimp only
    rw [hplan, execute_plan_eq]
    rfl

theorem run_remote_state_download_boot (env : FsEnv) (now : Int) (pair : SyncPair)
    (is_resync : Bool) (lp rp : List TrackedFile) (cur rcur : ScanMap)
    (hdir : pair.sync_direction = SyncDirection.DownloadOnly)
    (hboot : (is_resync || rp.isEmpty) = true) (hrp : rp = []) :
    (run_sync env now pair is_resync lp rp cur rcur).2.2 =
      downloadRemoteFold env pair.id now (bootstrapChanges rcur) [] := by
  have hplan : plan_sync pair is_resync lp rp cur rcur =
      { to_upload := [], to_download := bootstrapChanges rcur,
        to_delete_local := [], to_delete_remote := [],
        skipped_local_deletions := [], skipped_remote_deletions := [] } := by
    unfold plan_sync
    rw [hdir]
    dsimp only
    rw [if_pos hboot]
  unfold run_sync
  dsimp only
  rw [hplan, execute_plan_eq, hrp]
  rfl

theorem run_remote_state_download_incr (env : FsEnv) (now : Int) (pair : SyncPair)
    (is_resync : Bool) (lp rp : List TrackedFile) (cur rcur : ScanMap)
    (hdir : pair.sync_direction = SyncDirection.DownloadOnly)
    (hboot : (is_resync || rp.isEmpty) = false) :
    (run_sync env now pair is_resync lp rp cur rcur).2.2 =
      markFold now ((changeValues rp rcur).filter isDeletedChange)
        (downloadRemoteFold env pair.id now
          ((changeValues rp rcur).filter isTransferChange) rp) := by
  by_cases hprop : pair.delete_propagation = true
  · have hplan : plan_sync pair is_resync lp rp cur rcur =
        { to_upload := [],
          to_download := (changeValues rp rcur).filter isTransferChange,
          to_delete_local := (changeValues rp rcur).filter isDeletedChange,
          to_delete_remote := [],
          skipped_local_deletions := [], skipped_remote_deletions := [] } := by
      unfold plan_sync
      rw [hdir]
      dsimp only
      rw [if_neg (by simp [hboot]), if_pos hprop, if_pos hprop]
    unfold run_sync
    dsimp only
    rw [hplan, execute_plan_eq]
    rfl
  · have hplan : plan_sync pair is_resync lp rp cur rcur =
        { to_upload := [],
          to_download := (changeValues rp rcur).filter isTransferChange,
          to_delete_local := [], to_delete_remote := [],
          skipped_local_deletions := [],
          skipped_remote_deletions :=
            (changeValues rp rcur).filter isDeletedChange } := by
      unfold plan_sync
      rw [hdir]
      dsimp only
      rw [if_neg (by simp [hboot]), if_neg hprop, if_neg hprop]
    unfold run_sync
    dsimp only
    rw [hplan, execute_plan_eq]
    rfl

-- ==================== Claim C2 ====================

/-- C2 counterexample: an upload-only pair whose single local file carries no
modification time in the scan.  The first run (bootstrap) uploads it and
stores mtime 0 (the stat fallback); the second run, over an identical scan
and consistent reads, classifies the file Modified (stored mtime some 0
against scanned none) and uploads it again, so the second run does not
compute zero actions. -/
theorem C2_idempotence_counterexample :
    (plan_sync
      { id := 1, name := "p", local_path := "/d", account_id := "a",
        bucket := "b", remote_pfx := "", sync_direction := SyncDirection.UploadOnly,
        delete_propagation := false, status := SyncPairStatus.Idle,
        last_sync_at := none, last_error := none, created_at := 0 }
      false
      (run_sync
        { readSize := fun _ => 0, statMtime := fun _ => none,
          bodySize := fun _ => 0, remoteExists := fun _ => true } 7
        { id := 1, name := "p", local_path := "/d", account_id := "a",
          bucket := "b", remote_pfx := "",
          sync_direction := SyncDirection.UploadOnly,
          delete_propagation := false, status := SyncPairStatus.Idle,
          last_sync_at := none, last_error := none, created_at := 0 }
        false [] []
        [("a", { relative_path := "a", change_type := ChangeType.Unchanged,
                 size := some 0, mtime := none, hash := none })] []).2.1
      (run_sync
        { readSize := fun _ => 0, statMtime := fun _ => none,
          bodySize := fun _ => 0, remoteExists := fun _ => true } 7
        { id := 1, name := "p", local_path := "/d", account_id := "a",
          bucket := "b", remote_pfx := "",
          sync_direction := SyncDirection.UploadOnly,
          delete_propagation := false, status := SyncPairStatus.Idle,
          last_sync_at := none, last_error := none, created_at := 0 }
        false [] []
        [("a", { relative_path := "a", change_type := ChangeType.Unchanged,
                 size := some 0, mtime := none, hash := none })] []).2.2
      [("a", { relative_path := "a", change_type := ChangeType.Unchanged,
               size := some 0, mtime := none, hash := none })]
      []).to_upload ≠ [] := by
  decide

/-- C2 amended: under no external changes — the second scans equal the
first, reads and downloads observe the scanned sizes, no object vanishes —
and provided every entry of the current scans carries a modification time
on the upload side, a completed run leaves tracked state that makes the
second run's planner and the preview compute four empty queues. -/
theorem C2_idempotence_amended
    (env : FsEnv) (now : Int) (pair : SyncPair) (is_resync : Bool)
    (lp rp : List TrackedFile) (cur rcur : ScanMap)
    (hk : ∀ pc ∈ cur, pc.2.relative_path = pc.1)
    (hrk : ∀ pc ∈ rcur, pc.2.relative_path = pc.1)
    (hcnd : (cur.map Prod.fst).Nodup)
    (hrnd : (rcur.map Prod.fst).Nodup)
    (hpnd : (lp.map TrackedFile.relative_path).Nodup)
    (hrpnd : (rp.map TrackedFile.relative_path).Nodup)
    (hresync : is_resync = true → lp = [] ∧ rp = [])
    (hread : ∀ pc ∈ cur, env.readSize pc.1 = pc.2.size.getD 0)
    (hmt : ∀ pc ∈ cur, pc.2.mtime.isSome = true)
    (hbody : ∀ pc ∈ rcur, env.bodySize pc.1 = pc.2.size.getD 0)
    (hexist : ∀ pc ∈ rcur, env.remoteExists pc.1 = true) :
    plan_sync pair false (run_sync env now pair is_resync lp rp cur rcur).2.1
      (run_sync env now pair is_resync lp rp cur rcur).2.2 cur rcur =
      { to_upload := [], to_download := [], to_delete_local := [],
        to_delete_remote := [], skipped_local_deletions := [],
        skipped_remote_deletions := [] } ∧
    preview_sync pair (run_sync env now pair is_resync lp rp cur rcur).2.1
      (run_sync env now pair is_resync lp rp cur rcur).2.2 cur rcur =
      { to_upload := [], to_download := [], to_delete_local := [],
        to_delete_remote := [] } := by
  cases hdir : pair.sync_direction with
  | UploadOnly =>
    have hH : (∀ p c, (p, c) ∈ cur → ∃ f,
        findPrev (run_sync env now pair is_resync lp rp cur rcur).2.1 p = some f ∧
        f.is_deleted = false ∧ f.size = c.size.getD 0 ∧ f.mtime_ms = c.mtime) ∧
        (∀ f ∈ (run_sync env now pair is_resync lp rp cur rcur).2.1,
          f.is_deleted = false → containsKey f.relative_path cur = true) := by
      by_cases hboot : (is_resync || lp.isEmpty) = true
      · have hlp : lp = [] := by
          rw [Bool.or_eq_true] at hboot
          rcases hboot with h | h
          · exact (hresync h).1
          · simpa using h
        have hL1 := run_local_state_upload_boot env now pair is_resync lp rp cur
          rcur hdir hboot hlp
        have hst := upload_bootstrap_state env pair.id now cur hcnd hread hmt
        rw [← hL1] at hst
        exact hst
      · have hb : (is_resync || lp.isEmpty) = false := by
          cases hbb : (is_resync || lp.isEmpty)
          · rfl
          · exact absurd hbb hboot
        have hL1 := run_local_state_upload_incr env now pair is_resync lp rp cur
          rcur hdir hb
        have hst := upload_incremental_state env pair.id now lp cur hk hcnd hpnd
          hread hmt
        rw [← hL1] at hst
        exact hst
    have hnil := detect_changes_eq_nil _ cur hH.1 hH.2
    have hcur0 : (run_sync env now pair is_resync lp rp cur rcur).2.1 = [] →
        cur = [] := by
      intro h0
      cases cur with
      | nil => rfl
      | cons hd tl =>
        obtain ⟨f, hf, _⟩ := hH.1 hd.1 hd.2 (by simpa using List.mem_cons_self hd tl)
        rw [h0] at hf
        cases hf
    exact plan_sync_empty_upload pair hdir _ _ cur rcur hnil hcur0
  | DownloadOnly =>
    have hH : (∀ p c, (p, c) ∈ rcur → ∃ f,
        findPrev (run_sync env now pair is_resync lp rp cur rcur).2.2 p = some f ∧
        f.is_deleted = false ∧ f.size = c.size.getD 0 ∧ f.mtime_ms = c.mtime) ∧
        (∀ f ∈ (run_sync env now pair is_resync lp rp cur rcur).2.2,
          f.is_deleted = false → containsKey f.relative_path rcur = true) := by
      by_cases hboot : (is_resync || rp.isEmpty) = true
      · have hrp : rp = [] := by
          rw [Bool.or_eq_true] at hboot
          rcases hboot with h | h
          · exact (hresync h).2
          · simpa using h
        have hR1 := run_remote_state_download_boot env now pair is_resync lp rp
          cur rcur hdir hboot hrp
        have hst := download_bootstrap_state env pair.id now rcur hrnd hbody hexist
        rw [← hR1] at hst
        exact hst
      · have hb : (is_resync || rp.isEmpty) = false := by
          cases hbb : (is_resync || rp.isEmpty)
          · rfl
          · exact absurd hbb hboot
        have hR1 := run_remote_state_download_incr env now pair is_resync lp rp
          cur rcur hdir hb
        have hst := download_incremental_state env pair.id now rp rcur hrk hrnd
          hrpnd hbody hexist
        rw [← hR1] at hst
        exact hst
    have hnil := detect_changes_eq_nil _ rcur hH.1 hH.2
    have hcur0 : (run_sync env now pair is_resync lp rp cur rcur).2.2 = [] →
        rcur = [] := by
      intro h0
      cases rcur with
      | nil => rfl
      | cons hd tl =>
        obtain ⟨f, hf, _⟩ := hH.1 hd.1 hd.2 (by simpa using List.mem_cons_self hd tl)
        rw [h0] at hf
        cases hf
    exact plan_sync_empty_download pair hdir _ _ cur rcur hnil hcur0

/-- Concrete instantiation of C2: one local file with a present mtime,
uploaded by a bootstrap run with consistent reads; the second run plans
nothing. -/
theorem C2_idempotence_amended_witness :
    (plan_sync
      { id := 1, name := "p", local_path := "/d", account_id := "a",
        bucket := "b", remote_pfx := "", sync_direction := SyncDirection.UploadOnly,
        delete_propagation := true, status := SyncPairStatus.Idle,
        last_sync_at := none, last_error := none, created_at := 0 }
      false
      (run_sync
        { readSize := fun _ => 5, statMtime := fun _ => none,
          bodySize := fun _ => 0, remoteExists := fun _ => true } 7
        { id := 1, name := "p", local_path := "/d", account_id := "a",
          bucket := "b", remote_pfx := "",
          sync_direction := SyncDirection.UploadOnly,
          delete_propagation := true, status := SyncPairStatus.Idle,
          last_sync_at := none, last_error := none, created_at := 0 }
        false [] []
        [("a", { relative_path := "a", change_type := ChangeType.Unchanged,
                 size := some 5, mtime := some 3, hash := none })] []).2.1
      (run_sync
        { readSize := fun _ => 5, statMtime := fun _ => none,
          bodySize := fun _ => 0, remoteExists := fun _ => true } 7
        { id := 1, name := "p", local_path := "/d", account_id := "a",
          bucket := "b", remote_pfx := "",
          sync_direction := SyncDirection.UploadOnly,
          delete_propagation := true, status := SyncPairStatus.Idle,
          last_sync_at := none, last_error := none, created_at := 0 }
        false [] []
        [("a", { relative_path := "a", change_type := ChangeType.Unchanged,
                 size := some 5, mtime := some 3, hash := none })] []).2.2
      [("a", { relative_path := "a", change_type := ChangeType.Unchanged,
               size := some 5, mtime := some 3, hash := none })]
      []).to_upload = [] := by
  rw [(C2_idempotence_amended
    { readSize := fun _ => 5, statMtime := fun _ => none,
      bodySize := fun _ => 0, remoteExists := fun _ => true } 7
    { id := 1, name := "p", local_path := "/d", account_id := "a",
      bucket := "b", remote_pfx := "", sync_direction := SyncDirection.UploadOnly,
      delete_propagation := true, status := SyncPairStatus.Idle,
      last_sync_at := none, last_error := none, created_at := 0 }
    false [] []
    [("a", { relative_path := "a", change_type := ChangeType.Unchanged,
             size := some 5, mtime := some 3, hash := none })] []
    (by decide) (by decide) (by simp) (by simp) (by simp) (by simp)
    (by intro h; cases h) (by decide) (by decide) (by decide) (by decide)).1]

-- ==================== Claim C7 ====================

/-- C7 counterexample: a file scanned with size 5 whose read at upload time
returns 7 bytes is recorded with size 7, the byte count actually read, not
the scanned size 5; and with no scanned mtime the stored mtime comes from a
fresh stat (3), so the record is not built from the already-scanned
size and mtime without re-statting. -/
theorem C7_upload_post_state_counterexample :
    findPrev (execute_plan
      { readSize := fun _ => 7, statMtime := fun _ => some 3,
        bodySize := fun _ => 0, remoteExists := fun _ => true } 1 0
      { to_upload := [{
          relative_path := "a", change_type := ChangeType.New,
          size := some 5, mtime := none, hash := none }],
        to_download := [], to_delete_local := [], to_delete_remote := [],
        skipped_local_deletions := [], skipped_remote_deletions := [] }
      [] []).1 "a" =
      some {
        id := 0, sync_pair_id := 1, relative_path := "a", size := 7,
        mtime_ms := some 3, etag := none, content_hash := none,
        is_deleted := false, last_seen_at := 0 } ∧
    (7 : Int) ≠ (some 5 : Option Int).getD 0 := by
  constructor
  · decide
  · decide

/-- C7 amended: after a successful upload of a change the executor stores,
in the local tracked record, the byte count actually read from disk (equal
to the scanned size only if the file is unchanged since the scan) and the
scanned mtime with a fresh stat (then 0) as fallback, clearing the deleted
flag; and in the remote tracked record only that size, with etag, mtime and
hash unset. -/
theorem C7_upload_post_state_amended (env : FsEnv) (pid now : Int)
    (c : DetectedChange) (lrows rrows : List TrackedFile) :
    (∃ f, findPrev (execute_plan env pid now
        { to_upload := [c], to_download := [], to_delete_local := [],
          to_delete_remote := [], skipped_local_deletions := [],
          skipped_remote_deletions := [] } lrows rrows).1 c.relative_path =
        some f ∧
      f.size = env.readSize c.relative_path ∧
      f.mtime_ms = some (c.mtime.getD ((env.statMtime c.relative_path).getD 0)) ∧
      f.content_hash = none ∧ f.is_deleted = false) ∧
    (∃ g, findPrev (execute_plan env pid now
        { to_upload := [c], to_download := [], to_delete_local := [],
          to_delete_remote := [], skipped_local_deletions := [],
          skipped_remote_deletions := [] } lrows rrows).2 c.relative_path =
        some g ∧
      g.size = env.readSize c.relative_path ∧ g.etag = none ∧
      g.mtime_ms = none ∧ g.content_hash = none ∧ g.is_deleted = false) := by
  constructor
  · obtain ⟨f, h1, h2, h3, h4, h5, h6⟩ :=
      findPrev_save_local_self lrows pid c.relative_path
        (env.readSize c.relative_path)
        (c.mtime.getD ((env.statMtime c.relative_path).getD 0)) none now
    exact ⟨f, h1, h3, h4, h5, h6⟩
  · obtain ⟨g, h1, h2, h3, h4, h5, h6, h7⟩ :=
      findPrev_save_remote_self rrows pid c.relative_path
        (env.readSize c.relative_path) none none none now
    exact ⟨g, h1, h3, h5, h4, h6, h7⟩

-- ==================== Claim C4 ====================

/-- C4: with delete propagation disabled no run or preview ever fills a
destination delete queue, and a source-side deletion detected by an
incremental run still marks the source tracked record deleted, so the
change detector of a later run, with the path still absent from the scan,
does not classify it Deleted again. -/
theorem C4_delete_propagation_gating
    (env : FsEnv) (now : Int) (pair : SyncPair) (is_resync : Bool)
    (lp rp : List TrackedFile) (cur rcur : ScanMap)
    (hprop : pair.delete_propagation = false) :
    ((plan_sync pair is_resync lp rp cur rcur).to_delete_local = [] ∧
     (plan_sync pair is_resync lp rp cur rcur).to_delete_remote = [] ∧
     (preview_sync pair lp rp cur rcur).to_delete_local = [] ∧
     (preview_sync pair lp rp cur rcur).to_delete_remote = []) ∧
    (pair.sync_direction = SyncDirection.UploadOnly → is_resync = false →
      (lp.map TrackedFile.relative_path).Nodup →
      (∀ pc ∈ cur, pc.2.relative_path = pc.1) →
      (cur.map Prod.fst).Nodup →
      ∀ f ∈ lp, f.is_deleted = false →
        containsKey f.relative_path cur = false →
      ∃ g, findPrev (run_sync env now pair is_resync lp rp cur rcur).2.1
          f.relative_path = some g ∧ g.is_deleted = true ∧
        ∀ cur2 : ScanMap, containsKey f.relative_path cur2 = false →
          lookupKey f.relative_path
            (detect_changes (run_sync env now pair is_resync lp rp cur rcur).2.1
              cur2) = none) ∧
    (pair.sync_direction = SyncDirection.DownloadOnly → is_resync = false →
      (rp.map TrackedFile.relative_path).Nodup →
      (∀ pc ∈ rcur, pc.2.relative_path = pc.1) →
      (rcur.map Prod.fst).Nodup →
      ∀ f ∈ rp, f.is_deleted = false →
        containsKey f.relative_path rcur = false →
      ∃ g, findPrev (run_sync env now pair is_resync lp rp cur rcur).2.2
          f.relative_path = some g ∧ g.is_deleted = true ∧
        ∀ rcur2 : ScanMap, containsKey f.relative_path rcur2 = false →
          lookupKey f.relative_path
            (detect_changes (run_sync env now pair is_resync lp rp cur rcur).2.2
              rcur2) = none) := by
  refine ⟨⟨?_, ?_, ?_, ?_⟩, ?_, ?_⟩
  · cases hdir : pair.sync_direction <;>
      · simp only [plan_sync, hdir]
        split <;> simp [hprop]
  · cases hdir : pair.sync_direction <;>
      · simp only [plan_sync, hdir]
        split <;> simp [hprop]
  · cases hdir : pair.sync_direction <;>
      · simp only [preview_sync, hdir]
        split <;> simp [hprop]
  · cases hdir : pair.sync_direction <;>
      · simp only [preview_sync, hdir]
        split <;> simp [hprop]
  · intro hdir hres hpnd hk hcnd f hf hfd hnc
    have hboot : (is_resync || lp.isEmpty) = false := by
      rw [hres]
      cases lp with
      | nil => simp at hf
      | cons a l => rfl
    have hL1 := run_local_state_upload_incr env now pair is_resync lp rp cur
      rcur hdir hboot
    have hcsnd := changeValues_paths_nodup lp cur hk
    have hdnd := filter_paths_nodup isDeletedChange hcsnd
    have hlook : lookupKey f.relative_path (detect_changes lp cur) =
        some (deletedRecord f) := by
      rw [lookupKey_detect_changes, deleted_part_at_row lp cur hpnd hf,
        classified_part_none_of_not_in_current lp cur hnc,
        deletedEntry_eq_some.mpr ⟨hfd, hnc, rfl⟩]
      rfl
    have hvD : deletedRecord f ∈ (changeValues lp cur).filter isDeletedChange := by
      apply List.mem_filter.mpr
      exact ⟨List.mem_map.mpr ⟨_, mem_of_lookupKey hlook, rfl⟩, rfl⟩
    have hU : ∀ v ∈ (changeValues lp cur).filter isTransferChange,
        v.relative_path ≠ f.relative_path := by
      intro v hv hvp
      have := changeValue_live_in_current hk (List.mem_of_mem_filter hv)
        (transfer_ne_deleted (List.of_mem_filter hv))
      rw [hvp, hnc] at this
      cases this
    have hqex : ∃ v ∈ (changeValues lp cur).filter isDeletedChange,
        v.relative_path = f.relative_path := ⟨deletedRecord f, hvD, rfl⟩
    have hmk : findPrev (run_sync env now pair is_resync lp rp cur rcur).2.1
        f.relative_path = some (markUpd now f) := by
      rw [hL1, findPrev_markFold_mem now _ _ hdnd hqex,
        findPrev_uploadLocalFold_not_mem env pair.id now _ _ hU,
        findPrev_of_mem lp hpnd hf]
      rfl
    have hl1nd : ((run_sync env now pair is_resync lp rp cur rcur).2.1.map
        TrackedFile.relative_path).Nodup := by
      rw [hL1, rowPaths_markFold]
      exact nodup_uploadLocalFold env pair.id now _ lp hpnd
    refine ⟨markUpd now f, hmk, rfl, ?_⟩
    intro cur2 hnc2
    rw [lookupKey_detect_changes,
      classified_part_none_of_not_in_current _ cur2 hnc2]
    have hdel2 : firstFromEnd f.relative_path
        ((run_sync env now pair is_resync lp rp cur rcur).2.1.filterMap
          (deletedEntry cur2)) = none := by
      apply firstFromEnd_eq_none
      intro e he hk2
      rcases List.mem_filterMap.mp he with ⟨b, hb, hbe⟩
      rcases deletedEntry_eq_some.mp hbe with ⟨hbd, _, hbe'⟩
      have hbp : b.relative_path = f.relative_path := by
        rw [hbe'] at hk2
        exact hk2
      have := findPrev_of_mem _ hl1nd hb
      rw [hbp, hmk] at this
      injection this with this
      rw [← this] at hbd
      cases hbd
    rw [hdel2]
    rfl
  · intro hdir hres hrpnd hrk hrnd f hf hfd hnc
    have hboot : (is_resync || rp.isEmpty) = false := by
      rw [hres]
      cases rp with
      | nil => simp at hf
      | cons a l => rfl
    have hR1 := run_remote_state_download_incr env now pair is_resync lp rp cur
      rcur hdir hboot
    have hcsnd := changeValues_paths_nodup rp rcur hrk
    have hdnd := filter_paths_nodup isDeletedChange hcsnd
    have hlook : lookupKey f.relative_path (detect_changes rp rcur) =
        some (deletedRecord f) := by
      rw [lookupKey_detect_changes, deleted_part_at_row rp rcur hrpnd hf,
        classified_part_none_of_not_in_current rp rcur hnc,
        deletedEntry_eq_some.mpr ⟨hfd, hnc, rfl⟩]
      rfl
    have hvD : deletedRecord f ∈ (changeValues rp rcur).filter isDeletedChange := by
      apply List.mem_filter.mpr
      exact ⟨List.mem_map.mpr ⟨_, mem_of_lookupKey hlook, rfl⟩, rfl⟩
    have hU : ∀ v ∈ (changeValues rp rcur).filter isTransferChange,
        v.relative_path ≠ f.relative_path := by
      intro v hv hvp
      have := changeValue_live_in_current hrk (List.mem_of_mem_filter hv)
        (transfer_ne_deleted (List.of_mem_filter hv))
      rw [hvp, hnc] at this
      cases this
    have hqex : ∃ v ∈ (changeValues rp rcur).filter isDeletedChange,
        v.relative_path = f.relative_path := ⟨deletedRecord f, hvD, rfl⟩
    have hmk : findPrev (run_sync env now pair is_resync lp rp cur rcur).2.2
        f.relative_path = some (markUpd now f) := by
      rw [hR1, findPrev_markFold_mem now _ _ hdnd hqex,
        findPrev_downloadRemoteFold_not_mem env pair.id now _ _ hU,
        findPrev_of_mem rp hrpnd hf]
      rfl
    have hr1nd : ((run_sync env now pair is_resync lp rp cur rcur).2.2.map
        TrackedFile.relative_path).Nodup := by
      rw [hR1, rowPaths_markFold]
      exact nodup_downloadRemoteFold env pair.id now _ rp hrpnd
    refine ⟨markUpd now f, hmk, rfl, ?_⟩
    intro rcur2 hnc2
    rw [lookupKey_detect_changes,
      classified_part_none_of_not_in_current _ rcur2 hnc2]
    have hdel2 : firstFromEnd f.relative_path
        ((run_sync env now pair is_resync lp rp cur rcur).2.2.filterMap
          (deletedEntry rcur2)) = none := by
      apply firstFromEnd_eq_none
      intro e he hk2
      rcases List.mem_filterMap.mp he with ⟨b, hb, hbe⟩
      rcases deletedEntry_eq_some.mp hbe with ⟨hbd, _, hbe'⟩
      have hbp : b.relative_path = f.relative_path := by
        rw [hbe'] at hk2
        exact hk2
      have := findPrev_of_mem _ hr1nd hb
      rw [hbp, hmk] at this
      injection this with this
      rw [← this] at hbd
      cases hbd
    rw [hdel2]
    rfl

/-- Concrete instantiation of C4: an upload-only pair without propagation
whose only tracked file disappeared locally; the run marks it deleted and a
later detection over an empty scan reports nothing. -/
theorem C4_delete_propagation_gating_witness :
    ∃ g, findPrev (run_sync
      { readSize := fun _ => 0, statMtime := fun _ => none,
        bodySize := fun _ => 0, remoteExists := fun _ => true } 7
      { id := 1, name := "p", local_path := "/d", account_id := "a",
        bucket := "b", remote_pfx := "", sync_direction := SyncDirection.UploadOnly,
        delete_propagation := false, status := SyncPairStatus.Idle,
        last_sync_at := none, last_error := none, created_at := 0 }
      false
      [{ id := 1, sync_pair_id := 1, relative_path := "a", size := 5,
         mtime_ms := some 10, etag := none, content_hash := none,
         is_deleted := false, last_seen_at := 0 }]
      [] [] []).2.1 "a" = some g ∧ g.is_deleted = true ∧
    ∀ cur2 : ScanMap, containsKey "a" cur2 = false →
      lookupKey "a" (detect_changes (run_sync
        { readSize := fun _ => 0, statMtime := fun _ => none,
          bodySize := fun _ => 0, remoteExists := fun _ => true } 7
        { id := 1, name := "p", local_path := "/d", account_id := "a",
          bucket := "b", remote_pfx := "",
          sync_direction := SyncDirection.UploadOnly,
          delete_propagation := false, status := SyncPairStatus.Idle,
          last_sync_at := none, last_error := none, created_at := 0 }
        false
        [{ id := 1, sync_pair_id := 1, relative_path := "a", size := 5,
           mtime_ms := some 10, etag := none, content_hash := none,
           is_deleted := false, last_seen_at := 0 }]
        [] [] []).2.1 cur2) = none := by
  exact (C4_delete_propagation_gating
    { readSize := fun _ => 0, statMtime := fun _ => none,
      bodySize := fun _ => 0, remoteExists := fun _ => true } 7
    { id := 1, name := "p", local_path := "/d", account_id := "a",
      bucket := "b", remote_pfx := "", sync_direction := SyncDirection.UploadOnly,
      delete_propagation := false, status := SyncPairStatus.Idle,
      last_sync_at := none, last_error := none, created_at := 0 }
    false
    [{ id := 1, sync_pair_id := 1, relative_path := "a", size := 5,
       mtime_ms := some 10, etag := none, content_hash := none,
       is_deleted := false, last_seen_at := 0 }]
    [] [] [] rfl).2.1 rfl rfl (by simp) (by simp) (by simp)
    { id := 1, sync_pair_id := 1, relative_path := "a", size := 5,
      mtime_ms := some 10, etag := none, content_hash := none,
      is_deleted := false, last_seen_at := 0 }
    (by simp) rfl rfl

end BucketScout
